import Mathlib

/-!
Verification of the Persistor core: a shallow embedding of the metadata
model, the Postgres DDL generator, the streaming data extractor, the
Postgres inspector aggregation, the schema comparator and the backup
orchestrator, together with theorems settling the frozen claims.

Strings are modelled as Lean `String`; JavaScript template interpolation
becomes explicit `++` concatenation; JS array `push` becomes list append;
JS `Map` (insertion-ordered, last-insert-wins on lookup) is modelled as an
association list.
-/

namespace Persistor

/-! ## JavaScript-semantics helpers -/

/-- Truthiness of a JS string: every string except the empty one. -/
def jsStrTruthy (s : String) : Bool := s ≠ ""

/-- Truthiness of a nullable JS string (`null`/`undefined` modelled as `none`). -/
def jsOptStrTruthy : Option String → Bool
  | none => false
  | some s => jsStrTruthy s

/-- Truthiness of a nullable JS number: `null`, `undefined` and `0` are falsy. -/
def jsOptNumTruthy : Option Int → Bool
  | none => false
  | some n => n ≠ 0

/-- JS `a || undefined` on a nullable string: keeps `a` when truthy. -/
def jsOrUndef (o : Option String) : Option String :=
  if jsOptStrTruthy o then o else none

/-- JS `a || b` on a nullable string with string fallback. -/
def jsOrElse (o : Option String) (d : String) : String :=
  if jsOptStrTruthy o then o.getD "" else d

/-- Rendering of a possibly-undefined string inside a JS template literal:
`undefined` prints as the text "undefined". -/
def jsTemplate (o : Option String) : String := o.getD "undefined"

/-- ASCII lowercasing of one character (JS `toLowerCase` on the ASCII
catalog type names this system handles). -/
def asciiLowerChar (c : Char) : Char :=
  if 65 ≤ c.toNat ∧ c.toNat ≤ 90 then Char.ofNat (c.toNat + 32) else c

/-- JS `s.toLowerCase()`. -/
def asciiLower (s : String) : String := String.mk (s.data.map asciiLowerChar)

/-- ASCII uppercasing of one character. -/
def asciiUpperChar (c : Char) : Char :=
  if 97 ≤ c.toNat ∧ c.toNat ≤ 122 then Char.ofNat (c.toNat - 32) else c

/-- JS `s.toUpperCase()`. -/
def asciiUpper (s : String) : String := String.mk (s.data.map asciiUpperChar)

/-- Lookup in a JS `Map` built from a list of key/value pairs: when the same
key was inserted twice the later insertion wins. -/
def jsMapGet {α : Type} (l : List (String × α)) (k : String) : Option α :=
  (l.reverse.find? (fun p => p.1 = k)).map (fun p => p.2)

/-- First-seen-order deduplication (JS `includes`-guarded `push` accumulation). -/
def dedupFirst {α : Type} [DecidableEq α] (l : List α) : List α :=
  l.foldl (fun acc x => if x ∈ acc then acc else acc ++ [x]) []

/-! ## Metadata model (src/types/index.ts) -/

structure TableColumn where
  name : String
  dataType : String
  isNullable : Bool
  columnDefault : Option String
  characterMaximumLength : Option Int
  numericPrecision : Option Int
  numericScale : Option Int
  udtName : String
  deriving DecidableEq, Repr

inductive CType where
  | PRIMARY_KEY
  | FOREIGN_KEY
  | UNIQUE
  | CHECK
  deriving DecidableEq, Repr

/-- The literal union-type string of a constraint kind. -/
def CType.text : CType → String
  | .PRIMARY_KEY => "PRIMARY KEY"
  | .FOREIGN_KEY => "FOREIGN KEY"
  | .UNIQUE => "UNIQUE"
  | .CHECK => "CHECK"

structure TableConstraint where
  name : String
  type : CType
  columns : List String
  foreignTable : Option String := none
  foreignColumns : Option (List String) := none
  deriving DecidableEq, Repr

structure TableIndex where
  name : String
  definition : String
  deriving DecidableEq, Repr

structure TableSequence where
  name : String
  dataType : String
  startValue : String
  minValue : String
  maxValue : String
  incrementBy : String
  cycle : Bool
  cacheSize : String
  lastValue : String
  deriving DecidableEq, Repr

structure TableMetadata where
  name : String
  schema : String
  columns : List TableColumn
  constraints : List TableConstraint
  indexes : List TableIndex
  sequences : List TableSequence
  deriving DecidableEq, Repr

structure DatabaseObject where
  name : String
  schema : String
  definition : String
  tableName : Option String := none
  deriving DecidableEq, Repr

/-! ## Comparison model (src/types/comparison.ts) -/

inductive DiffType where
  | MISSING_TABLE
  | MISSING_COLUMN
  | TYPE_MISMATCH
  | NULLABILITY_MISMATCH
  | DEFAULT_MISMATCH
  | MISSING_CONSTRAINT
  | MISSING_INDEX
  | MISSING_FUNCTION
  | MISSING_TRIGGER
  | FUNCTION_MISMATCH
  | TRIGGER_MISMATCH
  deriving DecidableEq, Repr

structure SchemaDiff where
  type : DiffType
  table : String
  column : Option String := none
  expected : Option String := none
  actual : Option String := none
  details : Option String := none
  fix : Option String := none
  deriving DecidableEq, Repr

structure ComparisonResult where
  sourceDb : String
  targetDb : String
  diffs : List SchemaDiff
  deriving DecidableEq, Repr

/-! ## Postgres DDL generator (src/engines/postgres/PostgresDDLGenerator.ts) -/

/-- The parenthesised length/precision suffix shared by `formatColumn`,
`generateAddColumn` and `generateAlterColumnType`. -/
def columnTypeSuffix (col : TableColumn) : String :=
  if jsOptNumTruthy col.characterMaximumLength then
    "(" ++ toString (col.characterMaximumLength.getD 0) ++ ")"
  else if col.numericPrecision.isSome && col.numericScale.isSome then
    "(" ++ toString (col.numericPrecision.getD 0) ++ ", " ++
      toString (col.numericScale.getD 0) ++ ")"
  else ""

/-- `PostgresDDLGenerator.formatColumn`. -/
def formatColumn (col : TableColumn) : String :=
  let parts := ["\"" ++ col.name ++ "\"", asciiUpper col.dataType ++ columnTypeSuffix col]
  let parts := parts ++ (if !col.isNullable then ["NOT NULL"] else [])
  let parts := parts ++
    (if jsOptStrTruthy col.columnDefault then ["DEFAULT " ++ col.columnDefault.getD ""] else [])
  String.intercalate " " parts

/-- Quote an identifier list as in `pk.columns.map(c => quoted).join(comma)`. -/
def quotedJoin (cols : List String) : String :=
  String.intercalate ", " (cols.map (fun c => "\"" ++ c ++ "\""))

/-- `generateDatabaseCreate`. -/
def generateDatabaseCreate (databaseName : String) : String :=
  "-- Database Creation\nCREATE DATABASE \"" ++ databaseName ++ "\";\n\n"

/-- `generateSchemaCreate`. -/
def generateSchemaCreate (schema : String) : String :=
  if schema = "public" then "" else
  "CREATE SCHEMA IF NOT EXISTS \"" ++ schema ++ "\";\n\n"

/-- `generateTableCreate`: CREATE TABLE followed by one ALTER TABLE ADD
CONSTRAINT per PRIMARY KEY constraint. -/
def generateTableCreate (meta : TableMetadata) : String :=
  let columns := String.intercalate ",\n  " (meta.columns.map formatColumn)
  let sql := "CREATE TABLE \"" ++ meta.schema ++ "\".\"" ++ meta.name ++ "\" (\n  " ++
    columns ++ "\n);\n\n"
  let pks := meta.constraints.filter (fun c => c.type = CType.PRIMARY_KEY)
  pks.foldl (fun sql pk =>
    sql ++ "ALTER TABLE \"" ++ meta.schema ++ "\".\"" ++ meta.name ++
      "\" ADD CONSTRAINT \"" ++ pk.name ++ "\" PRIMARY KEY (" ++
      quotedJoin pk.columns ++ ");\n") sql

/-- `generateConstraints`: FOREIGN KEY then UNIQUE constraints, emitted as
ALTER TABLE statements (deferred past data load). -/
def generateConstraints (meta : TableMetadata) : String :=
  let fks := meta.constraints.filter (fun c => c.type = CType.FOREIGN_KEY)
  let sql := fks.foldl (fun sql fk =>
    sql ++ "ALTER TABLE \"" ++ meta.schema ++ "\".\"" ++ meta.name ++
      "\" ADD CONSTRAINT \"" ++ fk.name ++ "\" FOREIGN KEY (" ++
      quotedJoin fk.columns ++ ") REFERENCES \"" ++ meta.schema ++ "\".\"" ++
      jsTemplate fk.foreignTable ++ "\" (" ++
      (match fk.foreignColumns with
       | some fc => quotedJoin fc
       | none => "undefined") ++ ");\n") ""
  let uniques := meta.constraints.filter (fun c => c.type = CType.UNIQUE)
  let sql := uniques.foldl (fun sql u =>
    sql ++ "ALTER TABLE \"" ++ meta.schema ++ "\".\"" ++ meta.name ++
      "\" ADD CONSTRAINT \"" ++ u.name ++ "\" UNIQUE (" ++
      quotedJoin u.columns ++ ");\n") sql
  if jsStrTruthy sql then sql ++ "\n" else ""

/-- `generateIndexes`: the captured definitions, verbatim. -/
def generateIndexes (meta : TableMetadata) : String :=
  let sql := meta.indexes.foldl (fun sql idx => sql ++ idx.definition ++ ";\n") ""
  if jsStrTruthy sql then sql ++ "\n" else ""

/-- The CREATE SEQUENCE statement of `generateSequences`. -/
def seqCreateStmt (schema : String) (s : TableSequence) : String :=
  "CREATE SEQUENCE IF NOT EXISTS \"" ++ schema ++ "\".\"" ++ s.name ++
    "\"\n  START WITH " ++ s.startValue ++
    "\n  INCREMENT BY " ++ s.incrementBy ++
    "\n  NO MINVALUE\n  NO MAXVALUE\n  CACHE " ++ s.cacheSize ++ ";\n\n"

/-- The setval synchronisation statement of `generateSequences`. -/
def setvalStmt (schema name lastValue : String) : String :=
  "SELECT setval(\x27\"" ++ schema ++ "\".\"" ++ name ++ "\"\x27, " ++
    lastValue ++ ", true);\n\n"

/-- `generateSequences`: per sequence a CREATE SEQUENCE, then, when
`lastValue` is truthy, the setval statement. -/
def generateSequences (meta : TableMetadata) : String :=
  meta.sequences.foldl (fun sql s =>
    let sql := sql ++ seqCreateStmt meta.schema s
    if jsStrTruthy s.lastValue then sql ++ setvalStmt meta.schema s.name s.lastValue
    else sql) ""

/-- `generateAddColumn`. -/
def generateAddColumn (table schema : String) (col : TableColumn) : String :=
  let typeStr := asciiUpper col.dataType ++ columnTypeSuffix col
  let sql := "ALTER TABLE \"" ++ schema ++ "\".\"" ++ table ++ "\" ADD COLUMN \"" ++
    col.name ++ "\" " ++ typeStr
  let sql := sql ++ (if !col.isNullable then " NOT NULL" else "")
  let sql := sql ++
    (if jsOptStrTruthy col.columnDefault then " DEFAULT " ++ col.columnDefault.getD "" else "")
  sql ++ ";"

/-- `generateAlterColumnType`. -/
def generateAlterColumnType (table schema : String) (col : TableColumn) : String :=
  "ALTER TABLE \"" ++ schema ++ "\".\"" ++ table ++ "\" ALTER COLUMN \"" ++
    col.name ++ "\" TYPE " ++ asciiUpper col.dataType ++ columnTypeSuffix col ++ ";"

/-- `generateAlterColumnNullability`. -/
def generateAlterColumnNullability (table schema : String) (col : TableColumn) : String :=
  "ALTER TABLE \"" ++ schema ++ "\".\"" ++ table ++ "\" ALTER COLUMN \"" ++
    col.name ++ "\" " ++ (if col.isNullable then "DROP NOT NULL" else "SET NOT NULL") ++ ";"

/-- `generateAlterColumnDefault`. -/
def generateAlterColumnDefault (table schema : String) (col : TableColumn) : String :=
  if jsOptStrTruthy col.columnDefault then
    "ALTER TABLE \"" ++ schema ++ "\".\"" ++ table ++ "\" ALTER COLUMN \"" ++
      col.name ++ "\" SET DEFAULT " ++ col.columnDefault.getD "" ++ ";"
  else
    "ALTER TABLE \"" ++ schema ++ "\".\"" ++ table ++ "\" ALTER COLUMN \"" ++
      col.name ++ "\" DROP DEFAULT;"

/-- `generateDropTrigger`. -/
def generateDropTrigger (table schema triggerName : String) : String :=
  "DROP TRIGGER IF EXISTS \"" ++ triggerName ++ "\" ON \"" ++ schema ++ "\".\"" ++
    table ++ "\";"

/-- `generateConstraintFix`: the kind-dispatched ADD CONSTRAINT fix used by
the comparator; falls through to the empty string for CHECK constraints. -/
def generateConstraintFix (table schema : String) (c : TableConstraint) : String :=
  if c.type = CType.PRIMARY_KEY then
    "ALTER TABLE \"" ++ schema ++ "\".\"" ++ table ++ "\" ADD CONSTRAINT \"" ++
      c.name ++ "\" PRIMARY KEY (" ++ quotedJoin c.columns ++ ");"
  else if c.type = CType.FOREIGN_KEY then
    "ALTER TABLE \"" ++ schema ++ "\".\"" ++ table ++ "\" ADD CONSTRAINT \"" ++
      c.name ++ "\" FOREIGN KEY (" ++ quotedJoin c.columns ++ ") REFERENCES \"" ++
      schema ++ "\".\"" ++ jsTemplate c.foreignTable ++ "\" (" ++
      (match c.foreignColumns with
       | some fc => quotedJoin fc
       | none => "undefined") ++ ");"
  else if c.type = CType.UNIQUE then
    "ALTER TABLE \"" ++ schema ++ "\".\"" ++ table ++ "\" ADD CONSTRAINT \"" ++
      c.name ++ "\" UNIQUE (" ++ quotedJoin c.columns ++ ");"
  else ""

/-- `PostgresInspector.getSequences` populates `lastValue` as
`sd.last_value || sd.start_value`. -/
def pgSequenceLastValue (lastValueCol : Option String) (startValueCol : String) : String :=
  jsOrElse lastValueCol startValueCol

/-! ## Runtime values reaching the extractor (pg driver row values) -/

/-- A JavaScript value as handed to `PostgresExtractor.formatValue`:
`null`/`undefined`, a boolean, a number or numeric string (carried as its
`toString` text), a string, a `Buffer` (carried as its byte list), or an
array. -/
inductive JSValue where
  | jsnull
  | bool (b : Bool)
  | num (text : String)
  | str (s : String)
  | buf (bytes : List Nat)
  | arr (elems : List JSValue)

/-- The `val === null || val === undefined` test. -/
def JSValue.isNull : JSValue → Bool
  | .jsnull => true
  | _ => false

/-- One lowercase hex digit. -/
def hexDigit (n : Nat) : Char :=
  if n < 10 then Char.ofNat (48 + n) else Char.ofNat (87 + n)

/-- `Buffer.prototype.toString(hex)`: two lowercase hex digits per byte. -/
def bytesToHex (bytes : List Nat) : String :=
  String.mk (bytes.flatMap (fun b => [hexDigit ((b % 256) / 16), hexDigit (b % 16)]))

/-- JS `toString` of the values above. A `Buffer` without an encoding
argument decodes its bytes (modelled byte-per-char); an array joins its
elements with a comma. -/
def jsToString : JSValue → String
  | .jsnull => "null"
  | .bool b => if b then "true" else "false"
  | .num t => t
  | .str s => s
  | .buf bytes => String.mk (bytes.map (fun b => Char.ofNat (b % 256)))
  | .arr elems => String.intercalate "," (elems.attach.map (fun e => jsToString e.1))
termination_by v => v
decreasing_by
  have := List.sizeOf_lt_of_mem e.2
  simp only [JSValue.arr.sizeOf_spec]
  omega

/-- JSON string escaping of one character (quote, backslash and the common
control characters). -/
def jsonEscapeChar (c : Char) : List Char :=
  if c = Char.ofNat 34 then [Char.ofNat 92, Char.ofNat 34]
  else if c = Char.ofNat 92 then [Char.ofNat 92, Char.ofNat 92]
  else if c = Char.ofNat 10 then [Char.ofNat 92, Char.ofNat 110]
  else if c = Char.ofNat 13 then [Char.ofNat 92, Char.ofNat 114]
  else if c = Char.ofNat 9 then [Char.ofNat 92, Char.ofNat 116]
  else [c]

/-- `JSON.stringify` over the modelled values; a `Buffer` serialises through
its `toJSON` form. -/
def jsonStringify : JSValue → String
  | .jsnull => "null"
  | .bool b => if b then "true" else "false"
  | .num t => t
  | .str s => "\"" ++ String.mk (s.data.flatMap jsonEscapeChar) ++ "\""
  | .buf bytes =>
      "\x7b\"type\":\"Buffer\",\"data\":[" ++
        String.intercalate "," (bytes.map (fun b => toString b)) ++ "]\x7d"
  | .arr elems => "[" ++ String.intercalate "," (elems.attach.map (fun e => jsonStringify e.1)) ++ "]"
termination_by v => v
decreasing_by
  have := List.sizeOf_lt_of_mem e.2
  simp only [JSValue.arr.sizeOf_spec]
  omega

/-- JS truthiness of a runtime value (`val ? a : b`). -/
def jsTruthy : JSValue → Bool
  | .jsnull => false
  | .bool b => b
  | .num t => !(t = "0" || t = "-0" || t = "NaN" || t = "")
  | .str s => s ≠ ""
  | .buf _ => true
  | .arr _ => true

/-- SQL single-quote escaping: `replace(quote, quotequote)` doubles every
embedded single quote. -/
def sqlEscape (s : String) : String :=
  String.mk (s.data.flatMap (fun c => if c = Char.ofNat 39 then [c, c] else [c]))

/-- Substring occurrence on character lists (used to model JS
`String.prototype.includes`). -/
def hasSubAux (pat : List Char) : List Char → Bool
  | [] => pat.isPrefixOf []
  | c :: cs => pat.isPrefixOf (c :: cs) || hasSubAux pat cs

/-- JS `s.includes(pat)`. -/
def jsIncludes (s pat : String) : Bool := hasSubAux pat.data s.data

/-- `PostgresExtractor.formatValue`: the type-aware SQL literal formatter. -/
def formatValue (val : JSValue) (type : String) : String :=
  if val.isNull then "NULL" else
  let t := asciiLower type
  if t = "boolean" then (if jsTruthy val then "TRUE" else "FALSE") else
  if jsIncludes t "int" || jsIncludes t "decimal" || jsIncludes t "numeric" ||
     jsIncludes t "real" || jsIncludes t "double" then jsToString val else
  if jsIncludes t "json" then "\x27" ++ sqlEscape (jsonStringify val) ++ "\x27::" ++ t else
  if t = "bytea" then
    (match val with
     | JSValue.buf bytes => "\x27\\x" ++ bytesToHex bytes ++ "\x27"
     | _ => "\x27" ++ sqlEscape (jsToString val) ++ "\x27")
  else
    match val with
    | JSValue.arr elems =>
        "ARRAY[" ++
          String.intercalate "," (elems.attach.map (fun e => formatValue e.1 "text")) ++ "]"
    | _ => "\x27" ++ sqlEscape (jsToString val) ++ "\x27"
termination_by val
decreasing_by
  have := List.sizeOf_lt_of_mem e.2
  simp only [JSValue.arr.sizeOf_spec]
  omega

/-- A driver row: field name to value. Missing fields read as `undefined`,
which `formatValue` treats like `null`. -/
def Row := List (String × JSValue)

/-- `row[name]` on a driver row object. -/
def rowGet (row : Row) (name : String) : JSValue :=
  ((row.find? (fun p => p.1 = name)).map (fun p => p.2)).getD JSValue.jsnull

/-- `PostgresExtractor.formatInsert`: one INSERT statement for one row. -/
def formatInsert (meta : TableMetadata) (row : Row) : String :=
  let columns := String.intercalate ", " (meta.columns.map (fun c => "\"" ++ c.name ++ "\""))
  let values := String.intercalate ", "
    (meta.columns.map (fun c => formatValue (rowGet row c.name) c.dataType))
  "INSERT INTO " ++ meta.schema ++ "." ++ meta.name ++ " (" ++ columns ++ ") VALUES (" ++
    values ++ ");"

/-- The cursor fetch loop of `streamTableData`: each `cursor.read(chunkSize)`
returns the next at-most-`chunkSize` rows; the loop repeats while a fetch
returns rows, so the remaining rows are split into maximal pages. A page
size of zero fetches nothing and terminates at once. -/
def chunkList {α : Type} (n : Nat) : List α → List (List α)
  | [] => []
  | x :: xs =>
      if h : n = 0 then [] else
      List.take n (x :: xs) :: chunkList n (List.drop n (x :: xs))
termination_by l => l.length
decreasing_by
  simp only [List.length_drop, List.length_cons]
  omega

/-- `PostgresExtractor.streamTableData`: the yielded batches, each batch the
INSERT statements of one fetched page. -/
def streamTableData (meta : TableMetadata) (rows : List Row) (chunkSize : Nat) :
    List (List String) :=
  (chunkList chunkSize rows).map (fun page => page.map (formatInsert meta))

/-- The page-length skeleton of the fetch loop, as a function of the total
row count. -/
def chunkLens (n m : Nat) : List Nat :=
  if _hm : m = 0 then []
  else if _hn : n = 0 then []
  else min n m :: chunkLens n (m - n)
termination_by m
decreasing_by omega

/-! ## Postgres inspector: constraint aggregation
(src/engines/postgres/PostgresInspector.ts, getConstraints) -/

/-- One row of the flattened (constraint, column) catalog join. -/
structure ConstraintRow where
  name : String
  type : CType
  column_name : String
  foreign_table : Option String := none
  foreign_column : Option String := none
  deriving DecidableEq, Repr

/-- The fresh map entry created on first sight of a constraint name. -/
def newConstraintEntry (row : ConstraintRow) : TableConstraint :=
  { name := row.name
    type := row.type
    columns := []
    foreignTable := jsOrUndef row.foreign_table
    foreignColumns := some [] }

/-- The per-row mutation of the map entry: push the owning column unless
already included; push the referenced column when truthy and not included. -/
def updateConstraintEntry (row : ConstraintRow) (c : TableConstraint) : TableConstraint :=
  let c := if row.column_name ∈ c.columns then c
    else { c with columns := c.columns ++ [row.column_name] }
  if jsOptStrTruthy row.foreign_column then
    match row.foreign_column with
    | some fc =>
        (match c.foreignColumns with
         | some fcs => if fc ∈ fcs then c else { c with foreignColumns := some (fcs ++ [fc]) }
         | none => c)
    | none => c
  else c

/-- One iteration of the aggregation loop over the catalog rows, on the
insertion-ordered constraint map. -/
def constraintStep (m : List (String × TableConstraint)) (row : ConstraintRow) :
    List (String × TableConstraint) :=
  let m := if m.any (fun e => e.1 = row.name) then m
    else m ++ [(row.name, newConstraintEntry row)]
  m.map (fun e => if e.1 = row.name then (e.1, updateConstraintEntry row e.2) else e)

/-- `PostgresInspector.getConstraints`: re-aggregates the flattened join into
one `TableConstraint` per distinct constraint name (`Array.from(map.values())`
preserves insertion order). -/
def getConstraints (rows : List ConstraintRow) : List TableConstraint :=
  (rows.foldl constraintStep []).map (fun e => e.2)

/-! ## Schema comparator (src/core/comparator.ts, SchemaComparator) -/

/-- The observable state of one side's database, as the comparator sees it
through its inspector: the base tables in catalog order, plus the schema's
functions and triggers. -/
structure DbState where
  tables : List TableMetadata
  functions : List DatabaseObject
  triggers : List DatabaseObject
  deriving DecidableEq, Repr

/-- `listTables`. -/
def listTables (s : DbState) : List String := s.tables.map (fun m => m.name)

/-- `getTableMetadata` for a name returned by `listTables` (first match; the
empty default is never reached for such names). -/
def getMeta (s : DbState) (n : String) : TableMetadata :=
  (s.tables.find? (fun m => m.name = n)).getD
    { name := n, schema := "", columns := [], constraints := [], indexes := [], sequences := [] }

/-- The diff pushed for a source column absent from the target table. -/
def missingColumnDiff (source : TableMetadata) (sCol : TableColumn) : SchemaDiff :=
  { type := DiffType.MISSING_COLUMN
    table := source.name
    column := some sCol.name
    details := some ("Column \"" ++ sCol.name ++ "\" is missing in target table.")
    fix := some (generateAddColumn source.name source.schema sCol) }

/-- The diff pushed when the underlying catalog type names differ. -/
def typeMismatchDiff (source : TableMetadata) (sCol tCol : TableColumn) : SchemaDiff :=
  { type := DiffType.TYPE_MISMATCH
    table := source.name
    column := some sCol.name
    expected := some sCol.dataType
    actual := some tCol.dataType
    details := some ("Column \"" ++ sCol.name ++ "\" type mismatch. Source: " ++
      sCol.dataType ++ " (" ++ sCol.udtName ++ "), Target: " ++ tCol.dataType ++
      " (" ++ tCol.udtName ++ ")")
    fix := some (generateAlterColumnType source.name source.schema sCol) }

/-- The diff pushed when nullability differs. -/
def nullabilityMismatchDiff (source : TableMetadata) (sCol tCol : TableColumn) : SchemaDiff :=
  { type := DiffType.NULLABILITY_MISMATCH
    table := source.name
    column := some sCol.name
    expected := some (if sCol.isNullable then "NULL" else "NOT NULL")
    actual := some (if tCol.isNullable then "NULL" else "NOT NULL")
    fix := some (generateAlterColumnNullability source.name source.schema sCol) }

/-- The diff pushed when the raw default expressions differ. -/
def defaultMismatchDiff (source : TableMetadata) (sCol tCol : TableColumn) : SchemaDiff :=
  { type := DiffType.DEFAULT_MISMATCH
    table := source.name
    column := some sCol.name
    expected := some (jsOrElse sCol.columnDefault "NULL")
    actual := some (jsOrElse tCol.columnDefault "NULL")
    fix := some (generateAlterColumnDefault source.name source.schema sCol) }

/-- The diffs `compareColumns` pushes for one source column. -/
def columnDiffs (source : TableMetadata) (targetCols : List (String × TableColumn))
    (sCol : TableColumn) : List SchemaDiff :=
  match jsMapGet targetCols sCol.name with
  | none => [missingColumnDiff source sCol]
  | some tCol =>
      (if sCol.udtName ≠ tCol.udtName then [typeMismatchDiff source sCol tCol] else []) ++
      (if sCol.isNullable ≠ tCol.isNullable then [nullabilityMismatchDiff source sCol tCol]
       else []) ++
      (if sCol.columnDefault ≠ tCol.columnDefault then [defaultMismatchDiff source sCol tCol]
       else [])

/-- `SchemaComparator.compareColumns`. -/
def compareColumns (source target : TableMetadata) (diffs : List SchemaDiff) :
    List SchemaDiff :=
  let targetCols := target.columns.map (fun c => (c.name, c))
  source.columns.foldl (fun acc sCol => acc ++ columnDiffs source targetCols sCol) diffs

/-- The diff `compareConstraints` pushes for one missing source constraint. -/
def missingConstraintDiff (source : TableMetadata) (c : TableConstraint) : SchemaDiff :=
  { type := DiffType.MISSING_CONSTRAINT
    table := source.name
    column := some c.name
    details := some ("Constraint \"" ++ c.name ++ "\" (" ++ c.type.text ++
      ") is missing in target.")
    fix := some (generateConstraintFix source.name source.schema c) }

/-- `SchemaComparator.compareConstraints`: presence-only comparison by name. -/
def compareConstraints (source target : TableMetadata) (diffs : List SchemaDiff) :
    List SchemaDiff :=
  let targetNames := target.constraints.map (fun c => c.name)
  source.constraints.foldl (fun acc c =>
    acc ++ (if targetNames.contains c.name then [] else [missingConstraintDiff source c])) diffs

/-- The diff `compareIndexes` pushes for one missing source index. -/
def missingIndexDiff (source : TableMetadata) (i : TableIndex) : SchemaDiff :=
  { type := DiffType.MISSING_INDEX
    table := source.name
    column := some i.name
    details := some ("Index \"" ++ i.name ++ "\" is missing in target.")
    fix := some (i.definition ++ ";") }

/-- `SchemaComparator.compareIndexes`: presence-only comparison by name. -/
def compareIndexes (source target : TableMetadata) (diffs : List SchemaDiff) :
    List SchemaDiff :=
  let targetNames := target.indexes.map (fun i => i.name)
  source.indexes.foldl (fun acc i =>
    acc ++ (if targetNames.contains i.name then [] else [missingIndexDiff source i])) diffs

/-- The diffs `compareFunctions` pushes for one source function. -/
def functionDiffs (targetFuncs : List (String × DatabaseObject)) (f : DatabaseObject) :
    List SchemaDiff :=
  match jsMapGet targetFuncs f.name with
  | none =>
      [{ type := DiffType.MISSING_FUNCTION
         table := "-"
         column := some f.name
         details := some ("Function \"" ++ f.name ++ "\" is missing in target.")
         fix := some (f.definition ++ ";") }]
  | some tf =>
      if f.definition ≠ tf.definition then
        [{ type := DiffType.FUNCTION_MISMATCH
           table := "-"
           column := some f.name
           details := some ("Function \"" ++ f.name ++ "\" definition mismatch.")
           fix := some (f.definition ++ ";") }]
      else []

/-- `SchemaComparator.compareFunctions`. -/
def compareFunctions (sourceFuncs targetFuncs : List DatabaseObject)
    (diffs : List SchemaDiff) : List SchemaDiff :=
  let targetMap := targetFuncs.map (fun f => (f.name, f))
  sourceFuncs.foldl (fun acc f => acc ++ functionDiffs targetMap f) diffs

/-- The `(owning table).(name)` key under which triggers are compared. -/
def triggerKey (t : DatabaseObject) : String := jsTemplate t.tableName ++ "." ++ t.name

/-- The diffs `compareTriggers` pushes for one source trigger. The
`tableName!` non-null assertion is type-level only; an absent owning table
reaches the diff as the template text "undefined". -/
def triggerDiffs (targetTrigs : List (String × DatabaseObject)) (t : DatabaseObject) :
    List SchemaDiff :=
  match jsMapGet targetTrigs (triggerKey t) with
  | none =>
      [{ type := DiffType.MISSING_TRIGGER
         table := jsTemplate t.tableName
         column := some t.name
         details := some ("Trigger \"" ++ t.name ++ "\" on table \"" ++
           jsTemplate t.tableName ++ "\" is missing in target.")
         fix := some (t.definition ++ ";") }]
  | some tt =>
      if t.definition ≠ tt.definition then
        [{ type := DiffType.TRIGGER_MISMATCH
           table := jsTemplate t.tableName
           column := some t.name
           details := some ("Trigger \"" ++ t.name ++ "\" on table \"" ++
             jsTemplate t.tableName ++ "\" definition mismatch.")
           fix := some (generateDropTrigger (jsTemplate t.tableName) t.schema t.name ++
             "\n" ++ t.definition ++ ";") }]
      else []

/-- `SchemaComparator.compareTriggers`. -/
def compareTriggers (sourceTrigs targetTrigs : List DatabaseObject)
    (diffs : List SchemaDiff) : List SchemaDiff :=
  let targetMap := targetTrigs.map (fun t => (triggerKey t, t))
  sourceTrigs.foldl (fun acc t => acc ++ triggerDiffs targetMap t) diffs

/-- The diff pushed for a source table absent from the target. -/
def missingTableDiff (src : DbState) (tableName : String) : SchemaDiff :=
  { type := DiffType.MISSING_TABLE
    table := tableName
    details := some ("Table \"" ++ tableName ++ "\" exists in source but is missing in target.")
    fix := some (generateTableCreate (getMeta src tableName)) }

/-- One iteration of the table loop of `SchemaComparator.compare`. -/
def tableStep (src tgt : DbState) (acc : List SchemaDiff) (tableName : String) :
    List SchemaDiff :=
  if (listTables tgt).contains tableName then
    let sourceMeta := getMeta src tableName
    let targetMeta := getMeta tgt tableName
    compareIndexes sourceMeta targetMeta
      (compareConstraints sourceMeta targetMeta
        (compareColumns sourceMeta targetMeta acc))
  else acc ++ [missingTableDiff src tableName]

/-- `SchemaComparator.compare`: missing-table pass and per-table structure
comparison in source table order, then functions, then triggers. -/
def compare (src tgt : DbState) (sourceSchema targetSchema : String) : ComparisonResult :=
  let diffs := (listTables src).foldl (tableStep src tgt) []
  let diffs := compareFunctions src.functions tgt.functions diffs
  let diffs := compareTriggers src.triggers tgt.triggers diffs
  { sourceDb := sourceSchema, targetDb := targetSchema, diffs := diffs }

/-! ## Orchestrator (src/core/orchestrator.ts) and SQL writer framing -/

/-- The phase of the backup run a write belongs to. -/
inductive Phase where
  | header
  | prelude
  | seq
  | table
  | data
  | index
  | constraint
  | footer
  deriving DecidableEq, Repr

/-- The forward order of the phases. -/
def phaseRank : Phase → Nat
  | .header => 0
  | .prelude => 1
  | .seq => 2
  | .table => 3
  | .data => 4
  | .index => 5
  | .constraint => 6
  | .footer => 7

/-- Writes ordered by backup phase. -/
def phaseLe (a b : Phase × String) : Prop := phaseRank a.1 ≤ phaseRank b.1

/-- `SQLWriter.open`: header comment block and the constraint-bypass
directive (the generation timestamp is an external input). -/
def writerOpenWrites (dateStr : String) : List (Phase × String) :=
  [(Phase.header, "-- PERSISTOR PostgreSQL Backup\n"),
   (Phase.header, "-- Date: " ++ dateStr ++ "\n"),
   (Phase.header, "-- --------------------------------------------------\n\n"),
   (Phase.header, "SET session_replication_role = replica;\n\n")]

/-- `SQLWriter.close`: the constraint-bypass restore directive and footer. -/
def writerCloseWrites : List (Phase × String) :=
  [(Phase.footer, "\nSET session_replication_role = DEFAULT;\n"),
   (Phase.footer, "-- Backup Completed.\n")]

/-- `Orchestrator.run`: the sequence of writes of one backup run, in program
order, each tagged with its phase. The orchestrator is polymorphic over the
engine, so the extractor appears as the function `chunksOf` from a table to
its stream of batches (each batch is written as its statements joined by a
newline, and each table's data ends with a blank-line write). Sequence,
index and constraint SQL is written only when non-empty. -/
def orchestratorWrites (dbName schemaName dateStr : String)
    (metas : List TableMetadata) (chunksOf : TableMetadata → List (List String)) :
    List (Phase × String) :=
  writerOpenWrites dateStr ++
  [(Phase.prelude, generateDatabaseCreate dbName),
   (Phase.prelude, generateSchemaCreate schemaName)] ++
  metas.filterMap (fun m =>
    let s := generateSequences m
    if jsStrTruthy s then some (Phase.seq, s) else none) ++
  metas.map (fun m => (Phase.table, generateTableCreate m)) ++
  metas.flatMap (fun m =>
    (chunksOf m).map (fun chunk => (Phase.data, String.intercalate "\n" chunk ++ "\n")) ++
    [(Phase.data, "\n")]) ++
  metas.filterMap (fun m =>
    let s := generateIndexes m
    if jsStrTruthy s then some (Phase.index, s) else none) ++
  metas.filterMap (fun m =>
    let s := generateConstraints m
    if jsStrTruthy s then some (Phase.constraint, s) else none) ++
  writerCloseWrites

/-! ## Spec-side characterisations -/

/-- `pat` occurs as a contiguous substring of `s`. -/
def HasSub (s pat : String) : Prop :=
  ∃ pre post, s.data = pre ++ (pat.data ++ post)

/-- The text `generateSequences` appends for one sequence: its CREATE
SEQUENCE statement followed by its setval statement when `lastValue` is
truthy. -/
def seqSqlOf (schema : String) (s : TableSequence) : String :=
  seqCreateStmt schema s ++
    (if jsStrTruthy s.lastValue then setvalStmt schema s.name s.lastValue else "")

/-- A diff refers to an object present on the source side: a source table
(by itself, or through one of its columns, constraints or indexes), a
source function, or a source trigger. -/
def RefsSource (src : DbState) (d : SchemaDiff) : Prop :=
  (∃ m ∈ src.tables, d.table = m.name ∧
     (d.column = none ∨
      (∃ c ∈ m.columns, d.column = some c.name) ∨
      (∃ k ∈ m.constraints, d.column = some k.name) ∨
      (∃ i ∈ m.indexes, d.column = some i.name))) ∨
  (∃ f ∈ src.functions, d.column = some f.name) ∨
  (∃ t ∈ src.triggers, d.column = some t.name)

/-- Spec-side description of the aggregated constraint for one distinct
name: kind and referenced table from the first row carrying the name,
owning and referenced columns deduplicated in first-seen row order. -/
def constraintOf (rows : List ConstraintRow) (n : String) : TableConstraint :=
  let rs := rows.filter (fun r => r.name = n)
  { name := n
    type := ((rs.head?).map (fun r => r.type)).getD CType.CHECK
    columns := dedupFirst (rs.map (fun r => r.column_name))
    foreignTable := jsOrUndef (((rs.head?).map (fun r => r.foreign_table)).getD none)
    foreignColumns := some (dedupFirst (rs.filterMap (fun r =>
      if jsOptStrTruthy r.foreign_column then r.foreign_column else none))) }

/-! ## Example inputs used by witnesses and counterexamples -/

/-- A table whose sequence started at 1 and was last observed at 57. -/
def exSeq57 : TableSequence :=
  { name := "orders_id_seq", dataType := "bigint", startValue := "1", minValue := "1"
    maxValue := "9223372036854775807", incrementBy := "1", cycle := false
    cacheSize := "1", lastValue := "57" }

def exIdCol : TableColumn :=
  { name := "id", dataType := "integer", isNullable := false, columnDefault := none
    characterMaximumLength := none, numericPrecision := some 32, numericScale := some 0
    udtName := "int4" }

def exSeqMeta : TableMetadata :=
  { name := "orders", schema := "public", columns := [exIdCol]
    constraints := [], indexes := [], sequences := [exSeq57] }

/-- A table carrying one CHECK constraint, one FOREIGN KEY, one index and
the sequence above: every backup phase emits something for it. -/
def exFullMeta : TableMetadata :=
  { name := "orders", schema := "public", columns := [exIdCol]
    constraints :=
      [{ name := "orders_chk", type := CType.CHECK, columns := ["id"] },
       { name := "orders_fk", type := CType.FOREIGN_KEY, columns := ["id"]
         foreignTable := some "customers", foreignColumns := some ["id"] }]
    indexes := [{ name := "orders_idx", definition := "CREATE INDEX orders_idx ON public.orders (id)" }]
    sequences := [exSeq57] }

def exChunks : TableMetadata → List (List String) :=
  fun _ => [["INSERT INTO public.orders (\"id\") VALUES (1);"]]

def exCheckConstraint : TableConstraint :=
  { name := "chk1", type := CType.CHECK, columns := ["a"], foreignColumns := some [] }

def exFkConstraint : TableConstraint :=
  { name := "fk9", type := CType.FOREIGN_KEY, columns := ["a"]
    foreignTable := some "t2", foreignColumns := some ["b"] }

/-- Source table with a single CHECK constraint, target table without it. -/
def exCheckMeta : TableMetadata :=
  { name := "t1", schema := "public", columns := []
    constraints := [exCheckConstraint]
    indexes := [], sequences := [] }

def exBareMeta : TableMetadata :=
  { name := "t1", schema := "public", columns := [], constraints := []
    indexes := [], sequences := [] }

/-- A database state holding two same-named functions (an overload pair)
with different definitions, as the Postgres catalog can report. -/
def exDupFuncState : DbState :=
  { tables := []
    functions :=
      [{ name := "f", schema := "public", definition := "defA" },
       { name := "f", schema := "public", definition := "defB" }]
    triggers := [] }

/-- A source state whose table is missing from an empty target state. -/
def exSrcState : DbState :=
  { tables := [exBareMeta], functions := [], triggers := [] }

def exEmptyState : DbState :=
  { tables := [], functions := [], triggers := [] }

/-- Flattened catalog rows for one two-column foreign key, as the join
returns them (one row per (constraint, column) pair, referenced columns
repeated). -/
def exFkRows : List ConstraintRow :=
  [{ name := "fk1", type := CType.FOREIGN_KEY, column_name := "a"
     foreign_table := some "t2", foreign_column := some "x" },
   { name := "fk1", type := CType.FOREIGN_KEY, column_name := "b"
     foreign_table := some "t2", foreign_column := some "x" },
   { name := "pk1", type := CType.PRIMARY_KEY, column_name := "a"
     foreign_table := some "t1", foreign_column := some "a" }]

/-! ## General helper lemmas -/

theorem foldl_concat_eq_append {α β : Type} (g : β → List α) (l : List β)
    (init : List α) :
    l.foldl (fun acc b => acc ++ g b) init = init ++ l.flatMap g := by
  induction l generalizing init with
  | nil => simp
  | cons x xs ih => simp [ih, List.append_assoc]

theorem flatMap_guard_singleton {α β : Type} (p : β → Bool) (f : β → α) (l : List β) :
    (l.flatMap fun b => if p b then [] else [f b]) = (l.filter (fun b => !p b)).map f := by
  induction l with
  | nil => simp
  | cons x xs ih =>
      by_cases h : p x <;> simp [List.filter_cons, h, ih]

theorem strFoldl_data {β : Type} (f : β → String) (l : List β) (init : String) :
    (l.foldl (fun acc b => acc ++ f b) init).data =
      init.data ++ (l.map (fun b => (f b).data)).flatten := by
  induction l generalizing init with
  | nil => simp
  | cons x xs ih => simp [ih, String.data_append, List.append_assoc]

/-! ## C10: the backup DDL path never emits a CHECK constraint -/

theorem generateTableCreate_drop_check (meta : TableMetadata)
    (l1 l2 : List TableConstraint) (c : TableConstraint)
    (hc : c.type = CType.CHECK) (hm : meta.constraints = l1 ++ c :: l2) :
    generateTableCreate meta = generateTableCreate { meta with constraints := l1 ++ l2 } := by
  simp only [generateTableCreate, hm, List.filter_append, List.filter_cons, hc]
  simp

theorem generateConstraints_drop_check (meta : TableMetadata)
    (l1 l2 : List TableConstraint) (c : TableConstraint)
    (hc : c.type = CType.CHECK) (hm : meta.constraints = l1 ++ c :: l2) :
    generateConstraints meta = generateConstraints { meta with constraints := l1 ++ l2 } := by
  simp only [generateConstraints, hm, List.filter_append, List.filter_cons, hc]
  simp

/-- C10: the backup DDL generators ignore CHECK constraints — removing a
CHECK constraint from the metadata leaves every generated backup statement
unchanged: `generateTableCreate` emits ALTER TABLE ADD CONSTRAINT only for
PRIMARY KEY constraints, `generateConstraints` only for FOREIGN KEY and
UNIQUE constraints, and the index and sequence generators never read the
constraint list. -/
theorem backup_ddl_ignores_check_constraints (meta : TableMetadata)
    (l1 l2 : List TableConstraint) (c : TableConstraint)
    (hc : c.type = CType.CHECK) (hm : meta.constraints = l1 ++ c :: l2) :
    generateTableCreate meta = generateTableCreate { meta with constraints := l1 ++ l2 } ∧
    generateConstraints meta = generateConstraints { meta with constraints := l1 ++ l2 } ∧
    generateIndexes meta = generateIndexes { meta with constraints := l1 ++ l2 } ∧
    generateSequences meta = generateSequences { meta with constraints := l1 ++ l2 } := by
  refine ⟨generateTableCreate_drop_check meta l1 l2 c hc hm,
    generateConstraints_drop_check meta l1 l2 c hc hm, rfl, rfl⟩

theorem seqFold_eq (schema : String) (l : List TableSequence) (init : String) :
    l.foldl (fun sql s =>
      let sql := sql ++ seqCreateStmt schema s
      if jsStrTruthy s.lastValue then sql ++ setvalStmt schema s.name s.lastValue
      else sql) init =
    l.foldl (fun sql s => sql ++ seqSqlOf schema s) init := by
  induction l generalizing init with
  | nil => rfl
  | cons x xs ih =>
      simp only [List.foldl_cons]
      rw [← ih]
      congr 1
      by_cases h : jsStrTruthy x.lastValue <;>
        simp [seqSqlOf, h, String.append_assoc]

theorem generateSequences_as_fold (meta : TableMetadata) :
    generateSequences meta =
      meta.sequences.foldl (fun sql s => sql ++ seqSqlOf meta.schema s) "" :=
  seqFold_eq meta.schema meta.sequences ""

/-- C2: for every `TableMetadata` containing a sequence whose observed
`lastValue` is populated, `generateSequences` emits the setval statement
whose value argument is that `lastValue` (never the start value), and the
inspector populates `lastValue` from the catalog's last value, falling back
to the start value only when the catalog reports none; on the concrete
sequence with start value 1 and last value 57 the output carries the
argument 57 and not 1. -/
theorem generateSequences_setval_uses_last_value (meta : TableMetadata)
    (s : TableSequence) (hmem : s ∈ meta.sequences) (hlv : s.lastValue ≠ "") :
    HasSub (generateSequences meta) (setvalStmt meta.schema s.name s.lastValue) ∧
    (∀ lastCol startCol : String, lastCol ≠ "" →
      pgSequenceLastValue (some lastCol) startCol = lastCol) ∧
    (∀ startCol : String, pgSequenceLastValue none startCol = startCol) ∧
    jsIncludes (generateSequences exSeqMeta) ", 57, true" = true ∧
    jsIncludes (generateSequences exSeqMeta) ", 1, true" = false := by
  refine ⟨?_, ?_, ?_, by decide, by decide⟩
  · obtain ⟨l1, l2, hsplit⟩ := List.append_of_mem hmem
    rw [generateSequences_as_fold, hsplit]
    refine ⟨(l1.map (fun b => (seqSqlOf meta.schema b).data)).flatten ++
      (seqCreateStmt meta.schema s).data,
      (l2.map (fun b => (seqSqlOf meta.schema b).data)).flatten, ?_⟩
    rw [strFoldl_data]
    have htr : jsStrTruthy s.lastValue = true := by simp [jsStrTruthy, hlv]
    simp [seqSqlOf, htr, String.data_append, List.append_assoc]
  · intro lastCol startCol hl
    simp [pgSequenceLastValue, jsOrElse, jsOptStrTruthy, jsStrTruthy, hl]
  · intro startCol
    simp [pgSequenceLastValue, jsOrElse, jsOptStrTruthy]

theorem generateSequences_setval_uses_last_value_witness :
    exSeq57 ∈ exSeqMeta.sequences ∧ exSeq57.lastValue ≠ "" ∧
    HasSub (generateSequences exSeqMeta)
      (setvalStmt exSeqMeta.schema exSeq57.name exSeq57.lastValue) :=
  ⟨by decide, by decide,
    (generateSequences_setval_uses_last_value exSeqMeta exSeq57 (by decide) (by decide)).1⟩

theorem backup_ddl_ignores_check_constraints_witness :
    ((⟨"orders_chk", CType.CHECK, ["id"], none, none⟩ : TableConstraint).type = CType.CHECK) ∧
    (exFullMeta.constraints =
      [] ++ (⟨"orders_chk", CType.CHECK, ["id"], none, none⟩ : TableConstraint) ::
        [{ name := "orders_fk", type := CType.FOREIGN_KEY, columns := ["id"]
           foreignTable := some "customers", foreignColumns := some ["id"] }]) ∧
    generateTableCreate exFullMeta =
      generateTableCreate { exFullMeta with constraints :=
        [] ++ [{ name := "orders_fk", type := CType.FOREIGN_KEY, columns := ["id"]
                 foreignTable := some "customers", foreignColumns := some ["id"] }] } :=
  ⟨by decide, by decide,
    (backup_ddl_ignores_check_constraints exFullMeta []
      [{ name := "orders_fk", type := CType.FOREIGN_KEY, columns := ["id"]
         foreignTable := some "customers", foreignColumns := some ["id"] }]
      ⟨"orders_chk", CType.CHECK, ["id"], none, none⟩ (by decide) (by decide)).1⟩

/-! ## C4: missing-constraint diffs and their fixes -/

theorem compareConstraints_eq (s t : TableMetadata) (ds : List SchemaDiff) :
    compareConstraints s t ds = ds ++
      (s.constraints.filter (fun c =>
        !((t.constraints.map (fun k => k.name)).contains c.name))).map
        (missingConstraintDiff s) := by
  unfold compareConstraints
  rw [foldl_concat_eq_append, flatMap_guard_singleton]

theorem generateConstraintFix_has_add (table schema : String) (c : TableConstraint)
    (h : c.type ≠ CType.CHECK) :
    HasSub (generateConstraintFix table schema c) "ADD CONSTRAINT" := by
  have hsplit : ("\" ADD CONSTRAINT \"" : String).data =
      ("\" " : String).data ++ ("ADD CONSTRAINT" : String).data ++ (" \"" : String).data := rfl
  cases htype : c.type with
  | CHECK => exact absurd htype h
  | PRIMARY_KEY =>
      refine ⟨("ALTER TABLE \"" ++ schema ++ "\".\"" ++ table ++ "\" ").data,
        (" \"" ++ c.name ++ "\" PRIMARY KEY (" ++ quotedJoin c.columns ++ ");").data, ?_⟩
      simp [generateConstraintFix, htype, String.data_append, hsplit, List.append_assoc]
  | FOREIGN_KEY =>
      refine ⟨("ALTER TABLE \"" ++ schema ++ "\".\"" ++ table ++ "\" ").data,
        (" \"" ++ c.name ++ "\" FOREIGN KEY (" ++ quotedJoin c.columns ++
          ") REFERENCES \"" ++ schema ++ "\".\"" ++ jsTemplate c.foreignTable ++ "\" (" ++
          (match c.foreignColumns with
           | some fc => quotedJoin fc
           | none => "undefined") ++ ");").data, ?_⟩
      simp [generateConstraintFix, htype, String.data_append, hsplit, List.append_assoc]
  | UNIQUE =>
      refine ⟨("ALTER TABLE \"" ++ schema ++ "\".\"" ++ table ++ "\" ").data,
        (" \"" ++ c.name ++ "\" UNIQUE (" ++ quotedJoin c.columns ++ ");").data, ?_⟩
      simp [generateConstraintFix, htype, String.data_append, hsplit, List.append_assoc]

/-- C4 counterexample: a source CHECK constraint absent from the target
does produce a MISSING_CONSTRAINT diff, but its fix is the empty string —
not an ADD CONSTRAINT statement — because the fix dispatcher has no CHECK
branch. -/
theorem compareConstraints_check_fix_counterexample :
    compareConstraints exCheckMeta exBareMeta [] =
      [{ type := DiffType.MISSING_CONSTRAINT, table := "t1", column := some "chk1"
         details := some "Constraint \"chk1\" (CHECK) is missing in target."
         fix := some "" }] ∧
    jsIncludes "" "ADD CONSTRAINT" = false :=
  ⟨by decide, by decide⟩

/-- C4 (amended): for every source constraint whose name is absent from the
target's constraint set, `compareConstraints` appends exactly one
MISSING_CONSTRAINT diff carrying the kind-dispatched fix; the fix is an
ADD CONSTRAINT statement for PRIMARY KEY, FOREIGN KEY and UNIQUE
constraints, but the empty string for CHECK constraints. -/
theorem compareConstraints_missing_spec (s t : TableMetadata) (ds : List SchemaDiff) :
    compareConstraints s t ds = ds ++
      (s.constraints.filter (fun c =>
        !((t.constraints.map (fun k => k.name)).contains c.name))).map
        (missingConstraintDiff s) ∧
    (∀ c : TableConstraint, (missingConstraintDiff s c).type = DiffType.MISSING_CONSTRAINT ∧
      (missingConstraintDiff s c).fix = some (generateConstraintFix s.name s.schema c)) ∧
    (∀ c : TableConstraint, c.type ≠ CType.CHECK →
      HasSub (generateConstraintFix s.name s.schema c) "ADD CONSTRAINT") ∧
    (∀ c : TableConstraint, c.type = CType.CHECK →
      generateConstraintFix s.name s.schema c = "") := by
  refine ⟨compareConstraints_eq s t ds, fun c => ⟨rfl, rfl⟩,
    fun c hc => generateConstraintFix_has_add s.name s.schema c hc, fun c hc => ?_⟩
  simp [generateConstraintFix, hc]

theorem compareConstraints_missing_spec_witness :
    exFkConstraint.type ≠ CType.CHECK ∧
    exCheckConstraint.type = CType.CHECK ∧
    HasSub (generateConstraintFix exCheckMeta.name exCheckMeta.schema exFkConstraint)
      "ADD CONSTRAINT" ∧
    generateConstraintFix exCheckMeta.name exCheckMeta.schema exCheckConstraint = "" :=
  ⟨by decide, by decide,
   (compareConstraints_missing_spec exCheckMeta exBareMeta []).2.2.1 exFkConstraint (by decide),
   (compareConstraints_missing_spec exCheckMeta exBareMeta []).2.2.2 exCheckConstraint (by decide)⟩

/-! ## C6: TYPE_MISMATCH exactly when the underlying catalog type names differ -/

theorem compareColumns_eq (s t : TableMetadata) (ds : List SchemaDiff) :
    compareColumns s t ds = ds ++
      s.columns.flatMap (columnDiffs s (t.columns.map (fun c => (c.name, c)))) := by
  unfold compareColumns
  rw [foldl_concat_eq_append]

theorem columnDiffs_filter_type (source : TableMetadata)
    (tmap : List (String × TableColumn)) (sCol : TableColumn) :
    (columnDiffs source tmap sCol).filter
        (fun d => decide (d.type = DiffType.TYPE_MISMATCH)) =
      (match jsMapGet tmap sCol.name with
       | some tCol =>
           if sCol.udtName ≠ tCol.udtName then some (typeMismatchDiff source sCol tCol)
           else none
       | none => none).toList := by
  cases h : jsMapGet tmap sCol.name with
  | none => simp [columnDiffs, h, missingColumnDiff]
  | some tCol =>
      simp only [columnDiffs, h, List.filter_append]
      split_ifs <;>
        simp_all [typeMismatchDiff, nullabilityMismatchDiff, defaultMismatchDiff]

/-- C6: in the diffs appended by `compareColumns`, a TYPE_MISMATCH diff
appears exactly for the same-named column pairs whose underlying catalog
type names (`udtName`) differ — columns with identical `udtName` that
differ only in display type, length or precision contribute no
TYPE_MISMATCH diff. -/
theorem compareColumns_type_mismatch_iff_udt (s t : TableMetadata) (ds : List SchemaDiff) :
    (compareColumns s t ds).filter (fun d => decide (d.type = DiffType.TYPE_MISMATCH)) =
      ds.filter (fun d => decide (d.type = DiffType.TYPE_MISMATCH)) ++
      s.columns.filterMap (fun sCol =>
        match jsMapGet (t.columns.map (fun c => (c.name, c))) sCol.name with
        | some tCol =>
            if sCol.udtName ≠ tCol.udtName then some (typeMismatchDiff s sCol tCol) else none
        | none => none) := by
  rw [compareColumns_eq, List.filter_append, List.filter_flatMap]
  congr 1
  induction s.columns with
  | nil => rfl
  | cons x xs ih =>
      rw [List.flatMap_cons, List.filterMap_cons, columnDiffs_filter_type]
      cases hm : jsMapGet (t.columns.map (fun c => (c.name, c))) x.name with
      | none => simpa [hm] using ih
      | some tCol =>
          by_cases hu : x.udtName ≠ tCol.udtName <;> simp_all

/-! ## C3: streaming extraction yields non-empty maximal batches -/

theorem chunkList_batches {α : Type} (n : Nat) (hn : 1 ≤ n) :
    ∀ (k : Nat) (l : List α), l.length ≤ k →
      (∀ b ∈ chunkList n l, b ≠ []) ∧
      (chunkList n l).map List.length = chunkLens n l.length := by
  intro k
  induction k with
  | zero =>
      intro l hl
      have hnil : l = [] := List.eq_nil_of_length_eq_zero (Nat.le_zero.mp hl)
      subst hnil
      simp [chunkList, chunkLens]
  | succ k ih =>
      intro l hl
      match l with
      | [] => simp [chunkList, chunkLens]
      | x :: xs =>
          have hn0 : ¬ n = 0 := by omega
          have hdrop : (List.drop n (x :: xs)).length ≤ k := by
            rw [List.length_drop]
            simp only [List.length_cons] at hl ⊢
            omega
          obtain ⟨ihne, ihlen⟩ := ih (List.drop n (x :: xs)) hdrop
          constructor
          · intro b hb
            simp only [chunkList, hn0, dite_false] at hb
            rcases List.mem_cons.mp hb with hb | hb
            · subst hb
              have : (List.take n (x :: xs)).length = min n (xs.length + 1) := by
                rw [List.length_take, List.length_cons]
              intro hcon
              rw [hcon] at this
              simp at this
              omega
            · exact ihne b hb
          · simp only [chunkList, hn0, dite_false, List.map_cons, ihlen]
            rw [List.length_take, List.length_drop]
            conv_rhs => rw [chunkLens]
            simp [hn0, List.length_cons]

/-- C3: for every table and every page size of at least one row,
`streamTableData` yields a finite sequence of non-empty batches whose
lengths follow the maximal-page skeleton of the cursor loop (so iteration
stops exactly when a fetch returns no rows); in particular a table of
10050 rows with page size 1000 yields eleven batches — ten of 1000 INSERT
statements and a final one of 50. -/
theorem streamTableData_batch_spec (meta : TableMetadata) (rows : List Row) (n : Nat)
    (hn : 1 ≤ n) :
    (∀ b ∈ streamTableData meta rows n, b ≠ []) ∧
    (streamTableData meta rows n).map List.length = chunkLens n rows.length ∧
    (rows.length = 10050 → n = 1000 →
      (streamTableData meta rows n).map List.length = List.replicate 10 1000 ++ [50]) := by
  obtain ⟨hne, hlen⟩ := chunkList_batches n hn rows.length rows le_rfl
  have hmap : (streamTableData meta rows n).map List.length = chunkLens n rows.length := by
    unfold streamTableData
    rw [List.map_map]
    have : (List.length ∘ fun page => page.map (formatInsert meta)) =
        (List.length : List Row → Nat) := by
      funext page
      simp
    rw [this, hlen]
  refine ⟨?_, hmap, ?_⟩
  · intro b hb
    obtain ⟨page, hpage, hpb⟩ := List.mem_map.mp hb
    subst hpb
    have := hne page hpage
    simpa using this
  · intro h10 h1000
    subst h1000
    rw [hmap, h10]
    iterate 12 rw [chunkLens]
    norm_num [List.replicate]

theorem streamTableData_batch_spec_witness :
    (1 ≤ 1000) ∧ (List.replicate 10050 ([] : Row)).length = 10050 ∧
    (streamTableData exSeqMeta (List.replicate 10050 ([] : Row)) 1000).map List.length =
      List.replicate 10 1000 ++ [50] :=
  ⟨by decide, by rw [List.length_replicate],
    (streamTableData_batch_spec exSeqMeta (List.replicate 10050 ([] : Row)) 1000
      (by decide)).2.2 (by rw [List.length_replicate]) rfl⟩

/-! ## C8: the type-aware value formatter -/

theorem formatValue_json_branch (t : String) (v : JSValue) (hv : v.isNull = false)
    (hb : asciiLower t ≠ "boolean")
    (hnum : (jsIncludes (asciiLower t) "int" || jsIncludes (asciiLower t) "decimal" ||
      jsIncludes (asciiLower t) "numeric" || jsIncludes (asciiLower t) "real" ||
      jsIncludes (asciiLower t) "double") = false)
    (hjson : jsIncludes (asciiLower t) "json" = true) :
    formatValue v t = "\x27" ++ sqlEscape (jsonStringify v) ++ "\x27::" ++ asciiLower t := by
  cases v with
  | jsnull => simp [JSValue.isNull] at hv
  | bool b =>
      rw [formatValue]
      simp [JSValue.isNull, hb, hnum, hjson]
      all_goals intro _ h
      all_goals exact JSValue.noConfusion h
  | num r =>
      rw [formatValue]
      simp [JSValue.isNull, hb, hnum, hjson]
      all_goals intro _ h
      all_goals exact JSValue.noConfusion h
  | str s =>
      rw [formatValue]
      simp [JSValue.isNull, hb, hnum, hjson]
      all_goals intro _ h
      all_goals exact JSValue.noConfusion h
  | buf bytes =>
      rw [formatValue]
      simp [JSValue.isNull, hb, hnum, hjson]
  | arr elems =>
      rw [formatValue]
      simp [JSValue.isNull, hb, hnum, hjson]

/-- C8: `formatValue` maps null to the unquoted literal NULL; boolean-typed
values to TRUE/FALSE; integer-, decimal-, numeric-, real- and double-typed
values to their unquoted numeric text; json-family values to a
single-quoted, quote-escaped JSON serialisation with an explicit cast to
the lowercased type; bytea buffers to a hex escape literal; array values to
an ARRAY[...] constructor with recursively formatted elements; and any
other value to a single-quoted string whose embedded quotes are doubled. -/
theorem formatValue_spec :
    (∀ t : String, formatValue JSValue.jsnull t = "NULL") ∧
    (∀ (t : String) (b : Bool), asciiLower t = "boolean" →
      formatValue (JSValue.bool b) t = (if b then "TRUE" else "FALSE")) ∧
    (∀ (t r : String),
      (jsIncludes (asciiLower t) "int" || jsIncludes (asciiLower t) "decimal" ||
       jsIncludes (asciiLower t) "numeric" || jsIncludes (asciiLower t) "real" ||
       jsIncludes (asciiLower t) "double") = true →
      formatValue (JSValue.num r) t = r) ∧
    (∀ (t : String) (v : JSValue), (asciiLower t = "json" ∨ asciiLower t = "jsonb") →
      v.isNull = false →
      formatValue v t = "\x27" ++ sqlEscape (jsonStringify v) ++ "\x27::" ++ asciiLower t) ∧
    (∀ (t : String) (bytes : List Nat), asciiLower t = "bytea" →
      formatValue (JSValue.buf bytes) t = "\x27\\x" ++ bytesToHex bytes ++ "\x27") ∧
    (∀ (t : String) (elems : List JSValue),
      asciiLower t ≠ "boolean" →
      (jsIncludes (asciiLower t) "int" || jsIncludes (asciiLower t) "decimal" ||
       jsIncludes (asciiLower t) "numeric" || jsIncludes (asciiLower t) "real" ||
       jsIncludes (asciiLower t) "double") = false →
      jsIncludes (asciiLower t) "json" = false →
      asciiLower t ≠ "bytea" →
      formatValue (JSValue.arr elems) t =
        "ARRAY[" ++ String.intercalate "," (elems.map (fun v => formatValue v "text")) ++
          "]") ∧
    (∀ (t s : String),
      asciiLower t ≠ "boolean" →
      (jsIncludes (asciiLower t) "int" || jsIncludes (asciiLower t) "decimal" ||
       jsIncludes (asciiLower t) "numeric" || jsIncludes (asciiLower t) "real" ||
       jsIncludes (asciiLower t) "double") = false →
      jsIncludes (asciiLower t) "json" = false →
      asciiLower t ≠ "bytea" →
      formatValue (JSValue.str s) t = "\x27" ++ sqlEscape s ++ "\x27") := by
  refine ⟨?_, ?_, ?_, ?_, ?_, ?_, ?_⟩
  · intro t
    simp [formatValue, JSValue.isNull]
  · intro t b hb
    simp [formatValue, JSValue.isNull, hb, jsTruthy]
  · intro t r h
    by_cases hb : asciiLower t = "boolean"
    · rw [hb] at h
      exact absurd h (by decide)
    · simp [formatValue, JSValue.isNull, hb, h, jsToString]
  · intro t v hj hv
    rcases hj with hj | hj
    · exact formatValue_json_branch t v hv (by rw [hj]; decide) (by rw [hj]; decide)
        (by rw [hj]; decide)
    · exact formatValue_json_branch t v hv (by rw [hj]; decide) (by rw [hj]; decide)
        (by rw [hj]; decide)
  · intro t bytes hb
    rw [formatValue, hb]
    simp [JSValue.isNull, jsIncludes, hasSubAux]
  · intro t elems hb hnum hjson hbytea
    rw [formatValue]
    simp only [JSValue.isNull, Bool.false_eq_true, if_false, hb, hnum, hjson, hbytea,
      if_neg, ite_false]
    simp [hb, hnum, hjson, hbytea, List.attach_map_val]
  · intro t s hb hnum hjson hbytea
    rw [formatValue]
    simp [JSValue.isNull, hb, hnum, hjson, hbytea, jsToString]
    all_goals intro x h
    all_goals simp at h

theorem formatValue_spec_witness :
    formatValue JSValue.jsnull "text" = "NULL" ∧
    formatValue (JSValue.bool true) "boolean" = "TRUE" ∧
    formatValue (JSValue.num "42") "integer" = "42" ∧
    formatValue (JSValue.str "hi") "jsonb" =
      "\x27" ++ sqlEscape (jsonStringify (JSValue.str "hi")) ++ "\x27::" ++ asciiLower "jsonb" ∧
    formatValue (JSValue.buf [171, 205]) "bytea" =
      "\x27\\x" ++ bytesToHex [171, 205] ++ "\x27" ∧
    formatValue (JSValue.arr [JSValue.num "1"]) "ARRAY" =
      "ARRAY[" ++
        String.intercalate "," ([JSValue.num "1"].map (fun v => formatValue v "text")) ++
        "]" ∧
    formatValue (JSValue.str "a") "text" = "\x27" ++ sqlEscape "a" ++ "\x27" :=
  ⟨formatValue_spec.1 "text",
   formatValue_spec.2.1 "boolean" true (by decide),
   formatValue_spec.2.2.1 "integer" "42" (by decide),
   formatValue_spec.2.2.2.1 "jsonb" (JSValue.str "hi") (Or.inr (by decide)) rfl,
   formatValue_spec.2.2.2.2.1 "bytea" [171, 205] (by decide),
   formatValue_spec.2.2.2.2.2.1 "ARRAY" [JSValue.num "1"] (by decide) (by decide)
     (by decide) (by decide),
   formatValue_spec.2.2.2.2.2.2 "text" "a" (by decide) (by decide) (by decide) (by decide)⟩

/-! ## C7: re-aggregation of the flattened constraint join -/

theorem foldl_dedup_mem {α : Type} [DecidableEq α] (l : List α) (acc : List α) (y : α) :
    (y ∈ l.foldl (fun acc x => if x ∈ acc then acc else acc ++ [x]) acc) ↔
      y ∈ acc ∨ y ∈ l := by
  induction l generalizing acc with
  | nil => simp
  | cons x xs ih =>
      rw [List.foldl_cons, ih]
      by_cases h : x ∈ acc
      · simp only [h, if_true, List.mem_cons]
        constructor
        · rintro (hy | hy)
          · exact Or.inl hy
          · exact Or.inr (Or.inr hy)
        · rintro (hy | hy | hy)
          · exact Or.inl hy
          · exact Or.inl (hy ▸ h)
          · exact Or.inr hy
      · simp only [h, if_false, List.mem_append, List.mem_singleton, List.mem_cons]
        tauto

theorem mem_dedupFirst {α : Type} [DecidableEq α] (l : List α) (y : α) :
    y ∈ dedupFirst l ↔ y ∈ l := by
  unfold dedupFirst
  rw [foldl_dedup_mem]
  simp

theorem dedupFirst_append_singleton {α : Type} [DecidableEq α] (l : List α) (x : α) :
    dedupFirst (l ++ [x]) =
      if x ∈ l then dedupFirst l else dedupFirst l ++ [x] := by
  have h1 : dedupFirst (l ++ [x]) =
      if x ∈ dedupFirst l then dedupFirst l else dedupFirst l ++ [x] := by
    unfold dedupFirst
    rw [List.foldl_append]
    simp only [List.foldl_cons, List.foldl_nil]
  rw [h1]
  by_cases h : x ∈ l
  · rw [if_pos ((mem_dedupFirst l x).mpr h), if_pos h]
  · rw [if_neg (fun hc => h ((mem_dedupFirst l x).mp hc)), if_neg h]

theorem constraintOf_append_ne (rows : List ConstraintRow) (r : ConstraintRow)
    (n : String) (h : ¬ (r.name = n)) :
    constraintOf (rows ++ [r]) n = constraintOf rows n := by
  unfold constraintOf
  simp [List.filter_append, List.filter_cons, h]

theorem constraintOf_append_new (rows : List ConstraintRow) (r : ConstraintRow)
    (hnil : rows.filter (fun x => x.name = r.name) = []) :
    constraintOf (rows ++ [r]) r.name =
      updateConstraintEntry r (newConstraintEntry r) := by
  simp only [constraintOf, updateConstraintEntry, newConstraintEntry,
    List.filter_append, hnil, List.nil_append, List.filter_cons]
  simp only [decide_eq_true_eq, if_pos rfl]
  cases hfc : r.foreign_column with
  | none =>
      simp [dedupFirst, jsOptStrTruthy, hfc]
  | some fc =>
      by_cases htr : jsStrTruthy fc
      · simp [dedupFirst, jsOptStrTruthy, hfc, htr]
      · simp [dedupFirst, jsOptStrTruthy, hfc, htr]

theorem constraintOf_append_update (rows : List ConstraintRow) (r : ConstraintRow)
    (hne : rows.filter (fun x => x.name = r.name) ≠ []) :
    constraintOf (rows ++ [r]) r.name =
      updateConstraintEntry r (constraintOf rows r.name) := by
  have hfilter : (rows ++ [r]).filter (fun x => x.name = r.name) =
      rows.filter (fun x => x.name = r.name) ++ [r] := by
    simp [List.filter_append]
  have hhead : (rows.filter (fun x => x.name = r.name) ++ [r]).head? =
      (rows.filter (fun x => x.name = r.name)).head? := by
    cases hF : rows.filter (fun x => x.name = r.name) with
    | nil => exact absurd hF hne
    | cons a as => simp
  cases hfc : r.foreign_column with
  | none =>
      have hg : (if jsOptStrTruthy r.foreign_column = true then r.foreign_column
          else none) = none := by
        simp [jsOptStrTruthy, hfc]
      have hgu : jsOptStrTruthy r.foreign_column = false := by simp [jsOptStrTruthy, hfc]
      simp only [constraintOf, updateConstraintEntry, hfilter, hhead, List.map_append,
        List.map_cons, List.map_nil, List.filterMap_append, List.filterMap_cons,
        List.filterMap_nil, hg]
      rw [dedupFirst_append_singleton]
      by_cases hcm : r.column_name ∈
          (rows.filter (fun x => x.name = r.name)).map (fun x => x.column_name)
      · simp [hcm, hgu, mem_dedupFirst]
      · simp [hcm, hgu, mem_dedupFirst]
  | some fc =>
      by_cases htr : jsStrTruthy fc
      · have hg : (if jsOptStrTruthy r.foreign_column = true then r.foreign_column
            else none) = some fc := by
          simp [jsOptStrTruthy, hfc, htr]
        have hgu : jsOptStrTruthy r.foreign_column = true := by
          simp [jsOptStrTruthy, hfc, htr]
        have hgs : jsOptStrTruthy (some fc) = true := by
          simp [jsOptStrTruthy, htr]
        simp only [constraintOf, updateConstraintEntry, hfilter, hhead, List.map_append,
          List.map_cons, List.map_nil, List.filterMap_append, List.filterMap_cons,
          List.filterMap_nil, hg]
        rw [dedupFirst_append_singleton, dedupFirst_append_singleton]
        by_cases hcm : r.column_name ∈
            (rows.filter (fun x => x.name = r.name)).map (fun x => x.column_name)
        · by_cases hfm : fc ∈ (rows.filter (fun x => x.name = r.name)).filterMap
              (fun x => if jsOptStrTruthy x.foreign_column then x.foreign_column else none)
          · simp [hcm, hfm, hgu, hgs, hfc, mem_dedupFirst]
          · simp [hcm, hfm, hgu, hgs, hfc, mem_dedupFirst]
        · by_cases hfm : fc ∈ (rows.filter (fun x => x.name = r.name)).filterMap
              (fun x => if jsOptStrTruthy x.foreign_column then x.foreign_column else none)
          · simp [hcm, hfm, hgu, hgs, hfc, mem_dedupFirst]
          · simp [hcm, hfm, hgu, hgs, hfc, mem_dedupFirst]
      · have hg : (if jsOptStrTruthy r.foreign_column = true then r.foreign_column
            else none) = none := by
          simp [jsOptStrTruthy, hfc, htr]
        have hgu : jsOptStrTruthy r.foreign_column = false := by
          simp [jsOptStrTruthy, hfc, htr]
        have hgs : jsOptStrTruthy (some fc) = false := by
          simp [jsOptStrTruthy, htr]
        simp only [constraintOf, updateConstraintEntry, hfilter, hhead, List.map_append,
          List.map_cons, List.map_nil, List.filterMap_append, List.filterMap_cons,
          List.filterMap_nil, hg]
        rw [dedupFirst_append_singleton]
        by_cases hcm : r.column_name ∈
            (rows.filter (fun x => x.name = r.name)).map (fun x => x.column_name)
        · simp [hcm, hgu, hgs, hfc, mem_dedupFirst]
        · simp [hcm, hgu, hgs, hfc, mem_dedupFirst]

theorem constraint_fold_spec (rows : List ConstraintRow) :
    rows.foldl constraintStep [] =
      (dedupFirst (rows.map (fun x => x.name))).map
        (fun n => (n, constraintOf rows n)) := by
  induction rows using List.reverseRecOn with
  | nil => rfl
  | append_singleton rows r ih =>
      rw [List.foldl_append, List.foldl_cons, List.foldl_nil, ih]
      rw [List.map_append, List.map_cons, List.map_nil, dedupFirst_append_singleton]
      by_cases hmem : r.name ∈ rows.map (fun x => x.name)
      · rw [if_pos hmem]
        have hany : (((dedupFirst (rows.map fun x => x.name)).map
            (fun n => (n, constraintOf rows n))).any (fun e => e.1 = r.name)) = true := by
          rw [List.any_eq_true]
          exact ⟨(r.name, constraintOf rows r.name),
            List.mem_map.mpr ⟨r.name, (mem_dedupFirst _ _).mpr hmem, rfl⟩, by simp⟩
        have hfne : rows.filter (fun x => x.name = r.name) ≠ [] := by
          obtain ⟨x, hx, hxn⟩ := List.mem_map.mp hmem
          intro hcon
          have hxf : x ∈ rows.filter (fun x => x.name = r.name) :=
            List.mem_filter.mpr ⟨hx, by simp [hxn]⟩
          rw [hcon] at hxf
          exact (List.not_mem_nil x) hxf
        simp only [constraintStep, hany, if_true]
        rw [List.map_map]
        apply List.map_congr_left
        intro n hn
        by_cases hne : n = r.name
        · subst hne
          simp only [Function.comp_apply, if_pos rfl]
          rw [constraintOf_append_update rows r hfne]
          simp
        · simp only [Function.comp_apply, if_neg hne]
          rw [constraintOf_append_ne rows r n (fun h => hne h.symm)]
      · rw [if_neg hmem]
        have hany : (((dedupFirst (rows.map fun x => x.name)).map
            (fun n => (n, constraintOf rows n))).any (fun e => e.1 = r.name)) = false := by
          rw [Bool.eq_false_iff]
          intro hcon
          rw [List.any_eq_true] at hcon
          obtain ⟨e, he, hen⟩ := hcon
          obtain ⟨n, hn, rfl⟩ := List.mem_map.mp he
          simp only [decide_eq_true_eq] at hen
          exact hmem (hen ▸ (mem_dedupFirst _ _).mp hn)
        have hnil : rows.filter (fun x => x.name = r.name) = [] := by
          rw [List.filter_eq_nil_iff]
          intro x hx
          simp only [decide_eq_true_eq]
          intro hxn
          exact hmem (List.mem_map.mpr ⟨x, hx, hxn⟩)
        simp only [constraintStep, hany, Bool.false_eq_true, if_false]
        rw [List.map_append, List.map_map, List.map_cons, List.map_nil]
        have e1 : (dedupFirst (rows.map fun x => x.name)).map
            ((fun e => if e.1 = r.name then (e.1, updateConstraintEntry r e.2) else e) ∘
              fun n => (n, constraintOf rows n)) =
            (dedupFirst (rows.map fun x => x.name)).map
              (fun n => (n, constraintOf (rows ++ [r]) n)) := by
          apply List.map_congr_left
          intro n hn
          have hne : ¬ (n = r.name) := by
            intro hcon
            exact hmem (hcon ▸ (mem_dedupFirst _ _).mp hn)
          simp only [Function.comp_apply, if_neg hne]
          rw [constraintOf_append_ne rows r n (fun h => hne h.symm)]
        have e2 : (if (r.name, newConstraintEntry r).1 = r.name then
              ((r.name, newConstraintEntry r).1,
                updateConstraintEntry r (r.name, newConstraintEntry r).2)
            else (r.name, newConstraintEntry r)) =
            (r.name, constraintOf (rows ++ [r]) r.name) := by
          rw [constraintOf_append_new rows r hnil]
          simp
        rw [e1, e2, List.map_append, List.map_cons, List.map_nil]

/-- C7: `getConstraints` re-aggregates the flattened (constraint, column)
join into exactly one `TableConstraint` per distinct constraint name, in
first-seen order of the rows; within each constraint the owning columns and
the referenced (foreign) columns are deduplicated and kept in first-seen
row order. -/
theorem getConstraints_aggregation_spec (rows : List ConstraintRow) :
    getConstraints rows =
      (dedupFirst (rows.map (fun x => x.name))).map (constraintOf rows) ∧
    (getConstraints rows).map (fun c => c.name) =
      dedupFirst (rows.map (fun x => x.name)) ∧
    ∀ c ∈ getConstraints rows,
      c.columns = dedupFirst ((rows.filter (fun x => x.name = c.name)).map
        (fun x => x.column_name)) ∧
      c.foreignColumns = some (dedupFirst ((rows.filter (fun x => x.name = c.name)).filterMap
        (fun x => if jsOptStrTruthy x.foreign_column then x.foreign_column else none))) := by
  have h1 : getConstraints rows =
      (dedupFirst (rows.map (fun x => x.name))).map (constraintOf rows) := by
    unfold getConstraints
    rw [constraint_fold_spec, List.map_map]
    rfl
  refine ⟨h1, ?_, ?_⟩
  · rw [h1, List.map_map]
    conv_rhs => rw [← List.map_id (dedupFirst (rows.map (fun x => x.name)))]
    apply List.map_congr_left
    intro n _
    rfl
  · intro c hc
    rw [h1] at hc
    obtain ⟨n, _, rfl⟩ := List.mem_map.mp hc
    exact ⟨rfl, rfl⟩

theorem getConstraints_aggregation_spec_witness :
    (getConstraints exFkRows).map (fun c => c.name) =
      dedupFirst (exFkRows.map (fun x => x.name)) ∧
    constraintOf exFkRows "fk1" ∈ getConstraints exFkRows ∧
    (constraintOf exFkRows "fk1").columns =
      dedupFirst ((exFkRows.filter
        (fun x => x.name = (constraintOf exFkRows "fk1").name)).map
        (fun x => x.column_name)) :=
  ⟨(getConstraints_aggregation_spec exFkRows).2.1, by decide,
   ((getConstraints_aggregation_spec exFkRows).2.2 (constraintOf exFkRows "fk1")
     (by decide)).1⟩

/-! ## Comparator equation lemmas shared by C5 and C9 -/

theorem compareConstraints_flatMap (s t : TableMetadata) (ds : List SchemaDiff) :
    compareConstraints s t ds = ds ++ s.constraints.flatMap (fun c =>
      if (t.constraints.map (fun k => k.name)).contains c.name then []
      else [missingConstraintDiff s c]) := by
  unfold compareConstraints
  rw [foldl_concat_eq_append]

theorem compareIndexes_flatMap (s t : TableMetadata) (ds : List SchemaDiff) :
    compareIndexes s t ds = ds ++ s.indexes.flatMap (fun i =>
      if (t.indexes.map (fun k => k.name)).contains i.name then []
      else [missingIndexDiff s i]) := by
  unfold compareIndexes
  rw [foldl_concat_eq_append]

theorem compareFunctions_flatMap (sf tf : List DatabaseObject) (ds : List SchemaDiff) :
    compareFunctions sf tf ds =
      ds ++ sf.flatMap (functionDiffs (tf.map (fun f => (f.name, f)))) := by
  unfold compareFunctions
  rw [foldl_concat_eq_append]

theorem compareTriggers_flatMap (st tt : List DatabaseObject) (ds : List SchemaDiff) :
    compareTriggers st tt ds =
      ds ++ st.flatMap (triggerDiffs (tt.map (fun t => (triggerKey t, t)))) := by
  unfold compareTriggers
  rw [foldl_concat_eq_append]

/-! ## C5: comparing a state against itself -/

theorem jsMapGet_map_self {α : Type} (key : α → String) (l : List α) (c : α)
    (hnodup : (l.map key).Nodup) (hc : c ∈ l) :
    jsMapGet (l.map (fun x => (key x, x))) (key c) = some c := by
  unfold jsMapGet
  induction l with
  | nil => cases hc
  | cons x xs ih =>
      simp only [List.map_cons, List.nodup_cons] at hnodup
      obtain ⟨hx_notin, hxs_nodup⟩ := hnodup
      simp only [List.map_cons, List.reverse_cons, List.find?_append]
      rcases List.mem_cons.mp hc with hcx | hcxs
      · subst hcx
        have hnone : (xs.map (fun x => (key x, x))).reverse.find?
            (fun p => p.1 = key c) = none := by
          rw [List.find?_eq_none]
          intro p hp
          rw [List.mem_reverse] at hp
          obtain ⟨y, hy, rfl⟩ := List.mem_map.mp hp
          simp only [decide_eq_true_eq]
          intro hcon
          exact hx_notin (List.mem_map.mpr ⟨y, hy, hcon⟩)
        rw [hnone]
        simp
      · have hsome := ih hxs_nodup hcxs
        cases hfind : (xs.map (fun x => (key x, x))).reverse.find?
            (fun p => p.1 = key c) with
        | none => rw [hfind] at hsome; simp at hsome
        | some p =>
            rw [hfind] at hsome
            simpa using hsome

theorem columnDiffs_self (m : TableMetadata) (c : TableColumn)
    (hnodup : (m.columns.map (fun c => c.name)).Nodup) (hc : c ∈ m.columns) :
    columnDiffs m (m.columns.map (fun c => (c.name, c))) c = [] := by
  unfold columnDiffs
  rw [jsMapGet_map_self (fun c => c.name) m.columns c hnodup hc]
  simp

theorem functionDiffs_self (funcs : List DatabaseObject) (f : DatabaseObject)
    (hnodup : (funcs.map (fun f => f.name)).Nodup) (hf : f ∈ funcs) :
    functionDiffs (funcs.map (fun f => (f.name, f))) f = [] := by
  unfold functionDiffs
  rw [jsMapGet_map_self (fun f => f.name) funcs f hnodup hf]
  simp

theorem triggerDiffs_self (trigs : List DatabaseObject) (t : DatabaseObject)
    (hnodup : (trigs.map triggerKey).Nodup) (ht : t ∈ trigs) :
    triggerDiffs (trigs.map (fun t => (triggerKey t, t))) t = [] := by
  unfold triggerDiffs
  rw [jsMapGet_map_self triggerKey trigs t hnodup ht]
  simp

theorem getMeta_mem (s : DbState) (n : String) (hn : n ∈ listTables s) :
    getMeta s n ∈ s.tables := by
  obtain ⟨m, hm, hmn⟩ := List.mem_map.mp hn
  unfold getMeta
  cases hfind : s.tables.find? (fun x => x.name = n) with
  | some mf =>
      simpa using List.mem_of_find?_eq_some hfind
  | none =>
      rw [List.find?_eq_none] at hfind
      exact absurd (by simp [hmn]) (hfind m hm)

theorem tableStep_self (s : DbState) (acc : List SchemaDiff) (n : String)
    (hn : n ∈ listTables s)
    (hcols : ∀ m ∈ s.tables, (m.columns.map (fun c => c.name)).Nodup) :
    tableStep s s acc n = acc := by
  simp only [tableStep]
  have hcontains : (listTables s).contains n = true := List.elem_eq_true_of_mem hn
  rw [if_pos hcontains]
  have hmm : getMeta s n ∈ s.tables := getMeta_mem s n hn
  have hcc : compareColumns (getMeta s n) (getMeta s n) acc = acc := by
    rw [compareColumns_eq]
    have : (getMeta s n).columns.flatMap
        (columnDiffs (getMeta s n)
          ((getMeta s n).columns.map (fun c => (c.name, c)))) = [] := by
      rw [List.flatMap_eq_nil_iff]
      intro c hc
      exact columnDiffs_self (getMeta s n) c (hcols _ hmm) hc
    rw [this, List.append_nil]
  have hck : compareConstraints (getMeta s n) (getMeta s n) acc = acc := by
    rw [compareConstraints_flatMap]
    have : (getMeta s n).constraints.flatMap (fun c =>
        if ((getMeta s n).constraints.map (fun k => k.name)).contains c.name then []
        else [missingConstraintDiff (getMeta s n) c]) = [] := by
      rw [List.flatMap_eq_nil_iff]
      intro c hc
      have : ((getMeta s n).constraints.map (fun k => k.name)).contains c.name = true :=
        List.elem_eq_true_of_mem (List.mem_map.mpr ⟨c, hc, rfl⟩)
      rw [if_pos this]
    rw [this, List.append_nil]
  have hci : compareIndexes (getMeta s n) (getMeta s n) acc = acc := by
    rw [compareIndexes_flatMap]
    have : (getMeta s n).indexes.flatMap (fun i =>
        if ((getMeta s n).indexes.map (fun k => k.name)).contains i.name then []
        else [missingIndexDiff (getMeta s n) i]) = [] := by
      rw [List.flatMap_eq_nil_iff]
      intro i hi
      have : ((getMeta s n).indexes.map (fun k => k.name)).contains i.name = true :=
        List.elem_eq_true_of_mem (List.mem_map.mpr ⟨i, hi, rfl⟩)
      rw [if_pos this]
    rw [this, List.append_nil]
  rw [hcc, hck, hci]

/-- C5 counterexample: a database state carrying two same-named functions
with different definitions (a Postgres overload pair) compared against
itself — the same state on both sides — yields a non-empty diff list,
because the target function map keeps only the last same-named entry. -/
theorem compare_self_duplicate_function_counterexample :
    (compare exDupFuncState exDupFuncState "public" "public").diffs =
      [{ type := DiffType.FUNCTION_MISMATCH, table := "-", column := some "f"
         details := some "Function \"f\" definition mismatch."
         fix := some "defA;" }] ∧
    (compare exDupFuncState exDupFuncState "public" "public").diffs ≠ [] :=
  ⟨by decide, by decide⟩

/-- C5 (amended): comparing a database state against an exact structural
copy of itself yields an empty diff list, provided the per-table column
names, the function names, and the trigger (table, name) keys are each
duplicate-free — the comparator's last-insert-wins maps mis-pair
duplicate-keyed objects (e.g. overloaded functions) even between identical
sides. -/
theorem compare_self_nodup_empty (s : DbState) (ss ts : String)
    (hcols : ∀ m ∈ s.tables, (m.columns.map (fun c => c.name)).Nodup)
    (hfuncs : (s.functions.map (fun f => f.name)).Nodup)
    (htrigs : (s.triggers.map triggerKey).Nodup) :
    (compare s s ss ts).diffs = [] := by
  simp only [compare]
  have hfold : ∀ (names : List String) (acc : List SchemaDiff),
      (∀ n ∈ names, n ∈ listTables s) → names.foldl (tableStep s s) acc = acc := by
    intro names
    induction names with
    | nil => intro acc _; rfl
    | cons x xs ih =>
        intro acc hmem
        rw [List.foldl_cons, tableStep_self s acc x (hmem x (List.mem_cons_self x xs)) hcols]
        exact ih acc (fun n hn => hmem n (List.mem_cons_of_mem x hn))
  rw [hfold (listTables s) [] (fun n hn => hn)]
  have hfun : compareFunctions s.functions s.functions [] = [] := by
    rw [compareFunctions_flatMap, List.nil_append, List.flatMap_eq_nil_iff]
    intro f hf
    exact functionDiffs_self s.functions f hfuncs hf
  rw [hfun]
  rw [compareTriggers_flatMap, List.nil_append, List.flatMap_eq_nil_iff]
  intro t ht
  exact triggerDiffs_self s.triggers t htrigs ht

theorem compare_self_nodup_empty_witness :
    (∀ m ∈ exSrcState.tables, (m.columns.map (fun c => c.name)).Nodup) ∧
    (exSrcState.functions.map (fun f => f.name)).Nodup ∧
    (exSrcState.triggers.map triggerKey).Nodup ∧
    (compare exSrcState exSrcState "public" "public").diffs = [] :=
  ⟨by decide, by decide, by decide,
   compare_self_nodup_empty exSrcState "public" "public" (by decide) (by decide) (by decide)⟩

/-! ## C9: every diff refers to a source-side object -/

theorem getMeta_name (s : DbState) (n : String) (hn : n ∈ listTables s) :
    (getMeta s n).name = n := by
  obtain ⟨m, hm, hmn⟩ := List.mem_map.mp hn
  unfold getMeta
  cases hfind : s.tables.find? (fun x => x.name = n) with
  | some mf =>
      have := List.find?_some hfind
      simpa using this
  | none =>
      rw [List.find?_eq_none] at hfind
      exact absurd (by simp [hmn]) (hfind m hm)

theorem columnDiffs_refs (src : TableMetadata) (tmap : List (String × TableColumn))
    (c : TableColumn) (d : SchemaDiff) (hd : d ∈ columnDiffs src tmap c) :
    d.table = src.name ∧ d.column = some c.name := by
  unfold columnDiffs at hd
  cases h : jsMapGet tmap c.name with
  | none =>
      rw [h] at hd
      simp only [List.mem_singleton] at hd
      subst hd
      exact ⟨rfl, rfl⟩
  | some tCol =>
      rw [h] at hd
      rcases List.mem_append.mp hd with hd1 | hd1
      · rcases List.mem_append.mp hd1 with hd2 | hd2
        · split at hd2
          · simp only [List.mem_singleton] at hd2
            subst hd2
            exact ⟨rfl, rfl⟩
          · simp at hd2
        · split at hd2
          · simp only [List.mem_singleton] at hd2
            subst hd2
            exact ⟨rfl, rfl⟩
          · simp at hd2
      · split at hd1
        · simp only [List.mem_singleton] at hd1
          subst hd1
          exact ⟨rfl, rfl⟩
        · simp at hd1

theorem functionDiffs_refs (tmap : List (String × DatabaseObject)) (f : DatabaseObject)
    (d : SchemaDiff) (hd : d ∈ functionDiffs tmap f) : d.column = some f.name := by
  unfold functionDiffs at hd
  cases h : jsMapGet tmap f.name with
  | none =>
      rw [h] at hd
      simp only [List.mem_singleton] at hd
      subst hd
      rfl
  | some tf =>
      rw [h] at hd
      by_cases hdef : f.definition = tf.definition
      · simp [hdef] at hd
      · simp only [ne_eq, hdef, not_false_eq_true, if_true, List.mem_singleton] at hd
        subst hd
        rfl

theorem triggerDiffs_refs (tmap : List (String × DatabaseObject)) (t : DatabaseObject)
    (d : SchemaDiff) (hd : d ∈ triggerDiffs tmap t) : d.column = some t.name := by
  unfold triggerDiffs at hd
  cases h : jsMapGet tmap (triggerKey t) with
  | none =>
      rw [h] at hd
      simp only [List.mem_singleton] at hd
      subst hd
      rfl
  | some tt =>
      rw [h] at hd
      by_cases hdef : t.definition = tt.definition
      · simp [hdef] at hd
      · simp only [ne_eq, hdef, not_false_eq_true, if_true, List.mem_singleton] at hd
        subst hd
        rfl

theorem tableStep_append (src tgt : DbState) (acc : List SchemaDiff) (n : String) :
    tableStep src tgt acc n = acc ++ tableStep src tgt [] n := by
  simp only [tableStep]
  by_cases h : (listTables tgt).contains n
  · rw [if_pos h, if_pos h]
    rw [compareColumns_eq, compareConstraints_flatMap, compareIndexes_flatMap,
      compareColumns_eq, compareConstraints_flatMap, compareIndexes_flatMap]
    simp [List.append_assoc]
  · rw [if_neg h, if_neg h]
    simp

theorem mem_foldl_of_step_append {α β : Type} (step : List α → β → List α)
    (hstep : ∀ acc b, step acc b = acc ++ step [] b) (l : List β) (acc : List α)
    (d : α) (hd : d ∈ l.foldl step acc) : d ∈ acc ∨ ∃ b ∈ l, d ∈ step [] b := by
  induction l generalizing acc with
  | nil => exact Or.inl hd
  | cons x xs ih =>
      rw [List.foldl_cons] at hd
      rcases ih (step acc x) hd with hmem | hfound
      · rw [hstep] at hmem
        rcases List.mem_append.mp hmem with h | h
        · exact Or.inl h
        · exact Or.inr ⟨x, List.mem_cons_self x xs, h⟩
      · obtain ⟨b, hb, hdb⟩ := hfound
        exact Or.inr ⟨b, List.mem_cons_of_mem x hb, hdb⟩

theorem tableStep_refs (src tgt : DbState) (n : String) (hn : n ∈ listTables src)
    (d : SchemaDiff) (hd : d ∈ tableStep src tgt [] n) : RefsSource src d := by
  have hmm : getMeta src n ∈ src.tables := getMeta_mem src n hn
  simp only [tableStep] at hd
  by_cases h : (listTables tgt).contains n
  · rw [if_pos h] at hd
    rw [compareColumns_eq, compareConstraints_flatMap, compareIndexes_flatMap,
      List.nil_append] at hd
    rcases List.mem_append.mp hd with hd1 | hd1
    · rcases List.mem_append.mp hd1 with hd2 | hd2
      · obtain ⟨c, hc, hdc⟩ := List.mem_flatMap.mp hd2
        obtain ⟨htab, hcol⟩ := columnDiffs_refs (getMeta src n) _ c d hdc
        exact Or.inl ⟨getMeta src n, hmm, htab, Or.inr (Or.inl ⟨c, hc, hcol⟩)⟩
      · obtain ⟨c, hc, hdc⟩ := List.mem_flatMap.mp hd2
        split at hdc
        · simp at hdc
        · simp only [List.mem_singleton] at hdc
          subst hdc
          exact Or.inl ⟨getMeta src n, hmm, rfl, Or.inr (Or.inr (Or.inl ⟨c, hc, rfl⟩))⟩
    · obtain ⟨i, hi, hdi⟩ := List.mem_flatMap.mp hd1
      split at hdi
      · simp at hdi
      · simp only [List.mem_singleton] at hdi
        subst hdi
        exact Or.inl ⟨getMeta src n, hmm, rfl, Or.inr (Or.inr (Or.inr ⟨i, hi, rfl⟩))⟩
  · rw [if_neg h, List.nil_append] at hd
    simp only [List.mem_singleton] at hd
    subst hd
    exact Or.inl ⟨getMeta src n, hmm, (getMeta_name src n hn).symm, Or.inl rfl⟩

/-- C9: every diff produced by a comparison run refers to an object present
on the source side — a source table, one of its columns, constraints or
indexes, a source function, or a source trigger; objects present only in
the target never produce a diff. -/
theorem compare_diffs_reference_source (src tgt : DbState) (ss ts : String)
    (d : SchemaDiff) (hd : d ∈ (compare src tgt ss ts).diffs) : RefsSource src d := by
  simp only [compare] at hd
  rw [compareTriggers_flatMap, compareFunctions_flatMap] at hd
  rcases List.mem_append.mp hd with hd1 | hd1
  · rcases List.mem_append.mp hd1 with hd2 | hd2
    · rcases mem_foldl_of_step_append (tableStep src tgt) (tableStep_append src tgt)
        (listTables src) [] d hd2 with hnil | ⟨n, hn, hdn⟩
      · simp at hnil
      · exact tableStep_refs src tgt n hn d hdn
    · obtain ⟨f, hf, hdf⟩ := List.mem_flatMap.mp hd2
      exact Or.inr (Or.inl ⟨f, hf, functionDiffs_refs _ f d hdf⟩)
  · obtain ⟨t, ht, hdt⟩ := List.mem_flatMap.mp hd1
    exact Or.inr (Or.inr ⟨t, ht, triggerDiffs_refs _ t d hdt⟩)

theorem compare_diffs_reference_source_witness :
    missingTableDiff exSrcState "t1" ∈
      (compare exSrcState exEmptyState "public" "public").diffs ∧
    RefsSource exSrcState (missingTableDiff exSrcState "t1") :=
  ⟨by decide,
   compare_diffs_reference_source exSrcState exEmptyState "public" "public"
     (missingTableDiff exSrcState "t1") (by decide)⟩

/-! ## C1: the orchestrator's output phase order -/

theorem pairwise_phaseLe_const (p : Phase) (l : List (Phase × String))
    (h : ∀ x ∈ l, x.1 = p) : l.Pairwise phaseLe := by
  induction l with
  | nil => exact List.Pairwise.nil
  | cons x xs ih =>
      refine List.Pairwise.cons ?_ (ih (fun y hy => h y (List.mem_cons_of_mem x hy)))
      intro y hy
      unfold phaseLe
      rw [h x (List.mem_cons_self x xs), h y (List.mem_cons_of_mem x hy)]

theorem pairwise_phaseLe_append (l1 l2 : List (Phase × String)) (k : Nat)
    (h1 : l1.Pairwise phaseLe) (h2 : l2.Pairwise phaseLe)
    (hb1 : ∀ x ∈ l1, phaseRank x.1 ≤ k) (hb2 : ∀ x ∈ l2, k ≤ phaseRank x.1) :
    (l1 ++ l2).Pairwise phaseLe :=
  List.pairwise_append.mpr ⟨h1, h2, fun a ha b hb =>
    Nat.le_trans (hb1 a ha) (hb2 b hb)⟩

theorem pairwise_phaseLe_sections (A B C D E F G H : List (Phase × String))
    (mA : ∀ x ∈ A, x.1 = Phase.header)
    (mB : ∀ x ∈ B, x.1 = Phase.prelude)
    (mC : ∀ x ∈ C, x.1 = Phase.seq)
    (mD : ∀ x ∈ D, x.1 = Phase.table)
    (mE : ∀ x ∈ E, x.1 = Phase.data)
    (mF : ∀ x ∈ F, x.1 = Phase.index)
    (mG : ∀ x ∈ G, x.1 = Phase.constraint)
    (mH : ∀ x ∈ H, x.1 = Phase.footer) :
    (A ++ B ++ C ++ D ++ E ++ F ++ G ++ H).Pairwise phaseLe := by
  have pAB := pairwise_phaseLe_append A B 1 (pairwise_phaseLe_const _ _ mA)
    (pairwise_phaseLe_const _ _ mB) (fun x hx => by rw [mA x hx]; decide)
    (fun x hx => by rw [mB x hx]; decide)
  have bAB : ∀ x ∈ A ++ B, phaseRank x.1 ≤ 2 := by
    intro x hx
    rcases List.mem_append.mp hx with hx | hx
    · rw [mA x hx]; decide
    · rw [mB x hx]; decide
  have pABC := pairwise_phaseLe_append (A ++ B) C 2 pAB
    (pairwise_phaseLe_const _ _ mC) bAB (fun x hx => by rw [mC x hx]; decide)
  have bABC : ∀ x ∈ A ++ B ++ C, phaseRank x.1 ≤ 3 := by
    intro x hx
    rcases List.mem_append.mp hx with hx | hx
    · exact Nat.le_trans (bAB x hx) (by decide)
    · rw [mC x hx]; decide
  have pABCD := pairwise_phaseLe_append (A ++ B ++ C) D 3 pABC
    (pairwise_phaseLe_const _ _ mD) bABC (fun x hx => by rw [mD x hx]; decide)
  have bABCD : ∀ x ∈ A ++ B ++ C ++ D, phaseRank x.1 ≤ 4 := by
    intro x hx
    rcases List.mem_append.mp hx with hx | hx
    · exact Nat.le_trans (bABC x hx) (by decide)
    · rw [mD x hx]; decide
  have pABCDE := pairwise_phaseLe_append (A ++ B ++ C ++ D) E 4 pABCD
    (pairwise_phaseLe_const _ _ mE) bABCD (fun x hx => by rw [mE x hx]; decide)
  have bABCDE : ∀ x ∈ A ++ B ++ C ++ D ++ E, phaseRank x.1 ≤ 5 := by
    intro x hx
    rcases List.mem_append.mp hx with hx | hx
    · exact Nat.le_trans (bABCD x hx) (by decide)
    · rw [mE x hx]; decide
  have pABCDEF := pairwise_phaseLe_append (A ++ B ++ C ++ D ++ E) F 5 pABCDE
    (pairwise_phaseLe_const _ _ mF) bABCDE (fun x hx => by rw [mF x hx]; decide)
  have bABCDEF : ∀ x ∈ A ++ B ++ C ++ D ++ E ++ F, phaseRank x.1 ≤ 6 := by
    intro x hx
    rcases List.mem_append.mp hx with hx | hx
    · exact Nat.le_trans (bABCDE x hx) (by decide)
    · rw [mF x hx]; decide
  have pABCDEFG := pairwise_phaseLe_append (A ++ B ++ C ++ D ++ E ++ F) G 6 pABCDEF
    (pairwise_phaseLe_const _ _ mG) bABCDEF (fun x hx => by rw [mG x hx]; decide)
  have bABCDEFG : ∀ x ∈ A ++ B ++ C ++ D ++ E ++ F ++ G, phaseRank x.1 ≤ 7 := by
    intro x hx
    rcases List.mem_append.mp hx with hx | hx
    · exact Nat.le_trans (bABCDEF x hx) (by decide)
    · rw [mG x hx]; decide
  exact pairwise_phaseLe_append (A ++ B ++ C ++ D ++ E ++ F ++ G) H 7 pABCDEFG
    (pairwise_phaseLe_const _ _ mH) bABCDEFG (fun x hx => by rw [mH x hx]; decide)

theorem orchestratorWrites_pairwise (dbName schemaName dateStr : String)
    (metas : List TableMetadata) (chunksOf : TableMetadata → List (List String)) :
    (orchestratorWrites dbName schemaName dateStr metas chunksOf).Pairwise phaseLe := by
  have mA : ∀ x ∈ writerOpenWrites dateStr, x.1 = Phase.header := by
    intro x hx
    simp only [writerOpenWrites, List.mem_cons, List.not_mem_nil, or_false] at hx
    rcases hx with rfl | rfl | rfl | rfl <;> rfl
  have mB : ∀ x ∈ [(Phase.prelude, generateDatabaseCreate dbName),
      (Phase.prelude, generateSchemaCreate schemaName)], x.1 = Phase.prelude := by
    intro x hx
    simp only [List.mem_cons, List.not_mem_nil, or_false] at hx
    rcases hx with rfl | rfl <;> rfl
  have mC : ∀ x ∈ metas.filterMap (fun m =>
      let s := generateSequences m
      if jsStrTruthy s then some (Phase.seq, s) else none), x.1 = Phase.seq := by
    intro x hx
    obtain ⟨m, _, hfx⟩ := List.mem_filterMap.mp hx
    simp only [] at hfx
    split at hfx
    · cases hfx; rfl
    · exact Option.noConfusion hfx
  have mD : ∀ x ∈ metas.map (fun m => (Phase.table, generateTableCreate m)),
      x.1 = Phase.table := by
    intro x hx
    obtain ⟨m, _, rfl⟩ := List.mem_map.mp hx
    rfl
  have mE : ∀ x ∈ metas.flatMap (fun m =>
      (chunksOf m).map (fun chunk => (Phase.data, String.intercalate "\n" chunk ++ "\n")) ++
      [(Phase.data, "\n")]), x.1 = Phase.data := by
    intro x hx
    obtain ⟨m, _, hmx⟩ := List.mem_flatMap.mp hx
    rcases List.mem_append.mp hmx with hmx | hmx
    · obtain ⟨chunk, _, rfl⟩ := List.mem_map.mp hmx
      rfl
    · simp only [List.mem_singleton] at hmx
      subst hmx
      rfl
  have mF : ∀ x ∈ metas.filterMap (fun m =>
      let s := generateIndexes m
      if jsStrTruthy s then some (Phase.index, s) else none), x.1 = Phase.index := by
    intro x hx
    obtain ⟨m, _, hfx⟩ := List.mem_filterMap.mp hx
    simp only [] at hfx
    split at hfx
    · cases hfx; rfl
    · exact Option.noConfusion hfx
  have mG : ∀ x ∈ metas.filterMap (fun m =>
      let s := generateConstraints m
      if jsStrTruthy s then some (Phase.constraint, s) else none),
      x.1 = Phase.constraint := by
    intro x hx
    obtain ⟨m, _, hfx⟩ := List.mem_filterMap.mp hx
    simp only [] at hfx
    split at hfx
    · cases hfx; rfl
    · exact Option.noConfusion hfx
  have mH : ∀ x ∈ writerCloseWrites, x.1 = Phase.footer := by
    intro x hx
    simp only [writerCloseWrites, List.mem_cons, List.not_mem_nil, or_false] at hx
    rcases hx with rfl | rfl <;> rfl
  unfold orchestratorWrites
  exact pairwise_phaseLe_sections _ _ _ _ _ _ _ _ mA mB mC mD mE mF mG mH

/-- C1: in every backup run the orchestrator's writes are ordered by phase —
every sequence write precedes every table-creation write, which precedes
every data write, which precedes every index write, which precedes every
constraint write; so the position of the last sequence statement is
strictly below that of the first table-creation statement, and so on down
the chain. -/
theorem orchestrator_emits_phases_in_order (dbName schemaName dateStr : String)
    (metas : List TableMetadata) (chunksOf : TableMetadata → List (List String))
    (i j : Nat) (x y : Phase × String)
    (hx : (orchestratorWrites dbName schemaName dateStr metas chunksOf)[i]? = some x)
    (hy : (orchestratorWrites dbName schemaName dateStr metas chunksOf)[j]? = some y)
    (h : (x.1 = Phase.seq ∧ y.1 = Phase.table) ∨
         (x.1 = Phase.table ∧ y.1 = Phase.data) ∨
         (x.1 = Phase.data ∧ y.1 = Phase.index) ∨
         (x.1 = Phase.index ∧ y.1 = Phase.constraint)) :
    i < j := by
  have hp := orchestratorWrites_pairwise dbName schemaName dateStr metas chunksOf
  rw [List.getElem?_eq_some] at hx hy
  obtain ⟨hi, hxi⟩ := hx
  obtain ⟨hj, hyj⟩ := hy
  have hgx : (orchestratorWrites dbName schemaName dateStr metas chunksOf).get ⟨i, hi⟩ = x := by
    simpa using hxi
  have hgy : (orchestratorWrites dbName schemaName dateStr metas chunksOf).get ⟨j, hj⟩ = y := by
    simpa using hyj
  have hrank : phaseRank x.1 < phaseRank y.1 := by
    rcases h with ⟨h1, h2⟩ | ⟨h1, h2⟩ | ⟨h1, h2⟩ | ⟨h1, h2⟩ <;> rw [h1, h2] <;> decide
  by_contra hcon
  push_neg at hcon
  rcases Nat.lt_or_ge j i with hji | hij
  · have hle := List.pairwise_iff_get.mp hp ⟨j, hj⟩ ⟨i, hi⟩ hji
    unfold phaseLe at hle
    rw [hgx, hgy] at hle
    omega
  · have hij' : i = j := Nat.le_antisymm hij hcon
    subst hij'
    rw [hgx] at hgy
    subst hgy
    omega

set_option maxRecDepth 40000 in
theorem orchestrator_emits_phases_in_order_witness :
    (orchestratorWrites "db" "public" "2026-01-01 00:00:00" [exFullMeta] exChunks)[6]? =
      some (Phase.seq, generateSequences exFullMeta) ∧
    (orchestratorWrites "db" "public" "2026-01-01 00:00:00" [exFullMeta] exChunks)[7]? =
      some (Phase.table, generateTableCreate exFullMeta) ∧
    6 < 7 := by
  refine ⟨by decide, by decide, ?_⟩
  exact orchestrator_emits_phases_in_order "db" "public" "2026-01-01 00:00:00"
    [exFullMeta] exChunks 6 7
    (Phase.seq, generateSequences exFullMeta)
    (Phase.table, generateTableCreate exFullMeta)
    (by decide) (by decide) (Or.inl ⟨rfl, rfl⟩)

end Persistor
